import Mathlib

/-! # DogBot hardware bridge: an embedding of `dogbot_hw_interface.cpp` and `dtservo.cc`

The file embeds

* the joint-name resolution performed by the `DogBotHWInterface` constructor
  (`std::string::rfind` / `substr` with `size_t` arithmetic modulo `2 ^ 64`),
* the member functions `init`, `registerJointLimits`, `read`, `setWritePeriod`, `write`,
  `enforceLimits` and `reset` as functions on an explicit state record,
* the control flow of `main` in `dtservo.cc` as a small-step machine,

and proves properties of these definitions.

Conventions of the embedding.

* A `std::string` is a list of characters and `size_t` has 64 bits; a `std::vector<double>`
  is a list of rationals.
* A finite value of type `double` is the rational it denotes. Arithmetic on doubles rounds
  its exact result to the nearest double, ties to even (`roundDouble`). A value of type
  `float` is a `CFloat`, a rational or an infinity; the narrowing conversion
  `double → float` is `toFloat`, which rounds to the nearest float, ties to even, and
  overflows to an infinity. NaN is outside the model.
* Undefined behaviour (dereferencing a null `shared_ptr`, indexing a vector out of range) and
  a failed `assert` are modelled by the result `none`.
* Code that lives outside the two source files (the DogBot API, the URDF model, the
  `joint_limits_interface` library) is taken as a parameter, collected in `External`.
* Log output is not modelled.
-/

namespace DogBot

/-! ## Strings and `size_t` -/

/-- A `std::string`: a finite sequence of characters. -/
abbrev CString := List Char

/-- The constant `std::string::npos`, the value `size_t(-1)` on a 64 bit target. -/
def npos : Nat := 2 ^ 64 - 1

/-- The call `s.substr(pos, n)`: throws `std::out_of_range` (here `none`) when `pos > s.size()`,
otherwise the characters `[pos, pos + min(n, s.size() - pos))`. -/
def substr (s : CString) (pos n : Nat) : Option CString :=
  if s.length < pos then none else some ((s.drop pos).take n)

/-- The backwards scan of `std::string::rfind`: compare at `p`, then at `p - 1`, down to `0`;
the first position at which `pat` is found is returned, `npos` if there is none. -/
def rfindLoop (s pat : CString) : Nat → Nat
  | 0 => if s.take pat.length = pat then 0 else npos
  | p + 1 => if (s.drop (p + 1)).take pat.length = pat then p + 1 else rfindLoop s pat p

/-- The call `s.rfind(pat)` with the default start `npos`: the scan starts at
`s.size() - pat.size()`; a pattern longer than the string is never found. -/
def rfind (s pat : CString) : Nat :=
  if pat.length ≤ s.length then rfindLoop s pat (s.length - pat.length) else npos

/-- The body of the constructor loop up to the lookup (source lines 91 to 102): from a
configured joint name compute the actuator name `actname` and the joint type `jntType`.
The source variable `at` is written `at_`. -/
def resolveActuatorName (m_useVirtualKneeJoints : Bool) (name : CString) :
    Option (CString × CString) := do
  let at_ := rfind name "_joint".toList
  let actname ← substr name 0 at_
  let atJnt := rfind actname "_".toList
  let legName ← substr actname 0 atJnt
  let atJnt := (atJnt + 1) % 2 ^ 64
  let jntType ← substr actname atJnt ((at_ + 2 ^ 64 - atJnt) % 2 ^ 64)
  if jntType = "knee".toList ∧ m_useVirtualKneeJoints = true then
    pure ("virtual_".toList ++ legName ++ "_knee".toList, jntType)
  else
    pure (actname, jntType)

/-! ### The words of the specification for name resolution -/

/-- The greatest position at which `pat` occurs in the string, if it occurs at all. -/
def lastOccurrence (pat : CString) : CString → Option Nat
  | [] => if pat = [] then some 0 else none
  | c :: cs =>
    match lastOccurrence pat cs with
    | some i => some (i + 1)
    | none => if (c :: cs).take pat.length = pat then some 0 else none

/-- The name cut at the last occurrence of `_joint`; the whole name if there is none. -/
def strippedName (name : CString) : CString :=
  match lastOccurrence "_joint".toList name with
  | some i => name.take i
  | none => name

/-- The part of a stripped name after its last underscore; the whole of it when it has no
underscore. -/
def jointTypeOf (stripped : CString) : CString :=
  match lastOccurrence "_".toList stripped with
  | some k => stripped.drop (k + 1)
  | none => stripped

/-- The part of a stripped name before its last underscore; the whole of it when it has no
underscore. -/
def legNameOf (stripped : CString) : CString :=
  match lastOccurrence "_".toList stripped with
  | some k => stripped.take k
  | none => stripped

/-! ## Numbers, time and the remote proxies -/

/-- The constant `std::numeric_limits<double>::max()`. -/
def DBL_MAX : ℚ := (2 ^ 53 - 1) * 2 ^ 971

/-- The constant `std::numeric_limits<double>::epsilon()`. -/
def DBL_EPSILON : ℚ := 1 / 2 ^ 52

/-! ### Binary floating point (IEEE 754, round to nearest, ties to even) -/

/-- The power `2 ^ e` for an integer exponent. -/
def pow2 (e : Int) : ℚ :=
  if 0 ≤ e then mkRat (2 ^ e.toNat) 1 else mkRat 1 (2 ^ (-e).toNat)

/-- The loop that counts how often `n` can be halved before it drops below `2`. -/
def log2Loop : Nat → Nat → Nat
  | 0, _ => 0
  | fuel + 1, n => if n < 2 then 0 else log2Loop fuel (n / 2) + 1

/-- The integer part of the binary logarithm of a positive natural number. -/
def floorLog2 (n : Nat) : Nat := log2Loop n n

/-- The binary exponent of a rational `q ≠ 0`: the integer `e` with `2 ^ e ≤ |q| < 2 ^ (e+1)`.
The difference of the logarithms of numerator and denominator is `e` or `e + 1`. -/
def ilog2 (q : ℚ) : Int :=
  let e0 : Int := (floorLog2 q.num.natAbs : Int) - (floorLog2 q.den : Int)
  if |q| < pow2 e0 then e0 - 1 else e0

/-- The integer nearest to `x`, the even one of the two when `x` lies half way. -/
def roundHalfEven (x : ℚ) : Int :=
  let f := Rat.floor x
  let r := x - f
  if r < 1 / 2 then f
  else if 1 / 2 < r then f + 1
  else if f % 2 = 0 then f else f + 1

/-- The value `q` rounded to a binary format with `prec` significant bits whose least normal
exponent is `emin` (below it the format is subnormal and keeps the spacing of `emin`): the
nearest representable value, ties to even, with no bound on the exponent from above. -/
def roundBinary (prec : Nat) (emin : Int) (q : ℚ) : ℚ :=
  if q = 0 then 0
  else
    let ulp := pow2 (max (ilog2 q) emin - (prec - 1 : Nat))
    (roundHalfEven (q / ulp) : ℚ) * ulp

/-- The result of an arithmetic operation on doubles whose exact value is `q`: binary64 has
53 significant bits and least normal exponent `-1022`. The results the bridge computes this
way are a limit plus or minus `epsilon`, which cannot overflow. -/
def roundDouble (q : ℚ) : ℚ := roundBinary 53 (-1022) q

/-- A value of type `float`: a finite binary32 number or an infinity. -/
inductive CFloat where
  | ninf
  | fin (q : ℚ)
  | pinf
  deriving DecidableEq, Repr

/-- The narrowing conversion of a double to `float`, as in `float x = d;`: binary32 has 24
significant bits and least normal exponent `-126`; a rounded magnitude of `2 ^ 128` or more
is an infinity. -/
def toFloat (q : ℚ) : CFloat :=
  let r := roundBinary 24 (-126) q
  if pow2 128 ≤ r then CFloat.pinf
  else if r ≤ -pow2 128 then CFloat.ninf
  else CFloat.fin r

/-- The comparison `x > m` of a `float` with a finite number. -/
def CFloat.exceeds (x : CFloat) (m : ℚ) : Bool :=
  match x with
  | CFloat.pinf => true
  | CFloat.ninf => false
  | CFloat.fin q => decide (m < q)

/-- The type `DogBotN::TimePointT`, a clock reading in ticks. -/
abbrev TimePointT := Int

/-- The type `ros::Duration`, in nanoseconds. -/
abbrev Duration := Int

/-- The object a non-null `std::shared_ptr<DogBotN::JointC>` points to, by identity. -/
abbrev JointC := Nat

/-- The member functions of `JointC` that the bridge calls to command a proxy. -/
inductive ProxyCall where
  | SetupTrajectory (jnt : JointC) (updateLoopPeriod : ℚ) (effortLimit : CFloat)
  | DemandTrajectory (jnt : JointC) (position : ℚ)
  deriving DecidableEq, Repr

/-- The call `jnt->GetStateAt(theTime, position, velocity, effort)` as seen by the caller:
the three referenced cells before the call are mapped to the three cells after it. -/
abbrev StateQuery := JointC → TimePointT → ℚ × ℚ × ℚ → ℚ × ℚ × ℚ

/-! ## Joint limits (`joint_limits_interface`) -/

/-- The fields of `joint_limits_interface::JointLimits` used by the bridge. -/
structure JointLimits where
  min_position : ℚ
  max_position : ℚ
  max_velocity : ℚ
  max_effort : ℚ
  has_position_limits : Bool
  has_velocity_limits : Bool
  has_effort_limits : Bool
  deriving DecidableEq, Repr

/-- A default-constructed `JointLimits`. -/
def JointLimits.default : JointLimits :=
  { min_position := 0, max_position := 0, max_velocity := 0, max_effort := 0,
    has_position_limits := false, has_velocity_limits := false, has_effort_limits := false }

/-- The type `joint_limits_interface::SoftJointLimits`. -/
structure SoftJointLimits where
  min_position : ℚ
  max_position : ℚ
  k_position : ℚ
  k_velocity : ℚ
  deriving DecidableEq, Repr

/-- A default-constructed `SoftJointLimits`. -/
def SoftJointLimits.default : SoftJointLimits :=
  { min_position := 0, max_position := 0, k_position := 0, k_velocity := 0 }

/-- A saturation handle (`PositionJointSaturationHandle` and its velocity and effort
siblings): the joint handle it wraps, given by the resource name and the index `joint_id` of
the array cells its pointers refer to, the limits, and the internal state of the library. -/
structure SaturationHandle where
  name : CString
  joint_id : Nat
  limits : JointLimits
  hstate : Option ℚ
  deriving DecidableEq, Repr

/-- A soft-limits handle (`PositionJointSoftLimitsHandle` and its siblings). -/
structure SoftLimitsHandle where
  name : CString
  joint_id : Nat
  limits : JointLimits
  soft_limits : SoftJointLimits
  hstate : Option ℚ
  deriving DecidableEq, Repr

/-- The function `ResourceManager::registerHandle`: handles are keyed by resource name, and
registering a name again replaces the earlier handle. -/
def registerHandle {H : Type} (getName : H → CString) (m : List H) (h : H) : List H :=
  m.filter (fun x => decide (getName x ≠ getName h)) ++ [h]

/-- An element of a `urdf::Model`, by identity. -/
abbrev UrdfJoint := Nat

/-- Code outside the embedded sources, taken as parameters. -/
structure External where
  /-- The lookup `DogBotAPIC::GetJointByName`; `none` is the null pointer. -/
  GetJointByName : CString → Option JointC
  /-- The function `joint_limits_interface::getJointLimits(urdf_joint, limits)`: the returned
  flag and the limits record it leaves behind. -/
  getJointLimitsUrdf : UrdfJoint → JointLimits → Bool × JointLimits
  /-- The function `joint_limits_interface::getJointLimits(name, nh, limits)`. -/
  getJointLimitsParam : CString → JointLimits → Bool × JointLimits
  /-- The function `joint_limits_interface::getSoftJointLimits(urdf_joint, soft_limits)`. -/
  getSoftJointLimits : UrdfJoint → SoftJointLimits → Bool × SoftJointLimits
  /-- The policy `PositionJointSaturationHandle::enforceLimits(period)`: from the limits, the
  internal state, the period, the joint position and the command, the new internal state and
  the saturated command. -/
  satEnforce : JointLimits → Option ℚ → Duration → ℚ → ℚ → Option ℚ × ℚ
  /-- The policy `PositionJointSoftLimitsHandle::enforceLimits(period)`. -/
  softEnforce : JointLimits → SoftJointLimits → Option ℚ → Duration → ℚ → ℚ → Option ℚ × ℚ

/-! ## The state of a `DogBotHWInterface` -/

/-- The data members of `DogBotHWInterface` that the embedded functions read or write. -/
structure DogBotHWInterface where
  joint_names_ : List CString
  num_joints_ : Nat
  urdf_model_ : Option (CString → Option UrdfJoint)
  use_rosparam_joint_limits_ : Bool
  use_soft_limits_if_available_ : Bool
  joint_position_ : List ℚ
  joint_velocity_ : List ℚ
  joint_effort_ : List ℚ
  joint_position_command_ : List ℚ
  joint_velocity_command_ : List ℚ
  joint_effort_command_ : List ℚ
  joint_position_lower_limits_ : List ℚ
  joint_position_upper_limits_ : List ℚ
  joint_velocity_limits_ : List ℚ
  joint_effort_limits_ : List ℚ
  pos_jnt_sat_interface_ : List SaturationHandle
  vel_jnt_sat_interface_ : List SaturationHandle
  eff_jnt_sat_interface_ : List SaturationHandle
  pos_jnt_soft_limits_ : List SoftLimitsHandle
  vel_jnt_soft_limits_ : List SoftLimitsHandle
  eff_jnt_soft_limits_ : List SoftLimitsHandle
  m_enableControl : Bool
  m_useVirtualKneeJoints : Bool
  m_maxTorque : ℚ
  m_jointVelocityLimit : ℚ
  m_actuators : List (Option JointC)

/-- A counted loop `for (joint_id = 0; joint_id < n; ++joint_id) body`: the body runs at
`0, 1, …, n - 1` in this order, and a failing body ends the loop with `none`. -/
def forLoop {σ : Type} (body : σ → Nat → Option σ) : Nat → σ → Option σ
  | 0, s => some s
  | n + 1, s => (forLoop body n s).bind (fun t => body t n)

/-! ## The constructor -/

/-- The range-for loop over `joint_names_` (source lines 90 to 112): for each name in turn
resolve the actuator name and `push_back` the result of `GetJointByName`, null or not. -/
def constructLoop (ext : External) (m_useVirtualKneeJoints : Bool) :
    List CString → List (Option JointC) → Option (List (Option JointC))
  | [], m_actuators => some m_actuators
  | name :: rest, m_actuators =>
    match resolveActuatorName m_useVirtualKneeJoints name with
    | none => none
    | some (actname, _) =>
      constructLoop ext m_useVirtualKneeJoints rest (m_actuators ++ [ext.GetJointByName actname])

/-- The constructor. The arguments after the URDF model are the values the ROS parameters
`joints`, `enable_control`, `use_virtual_knee_joints`, `max_torque` and
`joint_velocity_limit` leave in the members. All vectors start empty; `m_actuators.empty()`
is a query and changes nothing. The member `num_joints_` has no initial value in the source;
the embedding starts it at `0`, and `init` assigns it before any use. -/
def construct (ext : External) (urdf_model : CString → Option UrdfJoint)
    (joint_names : List CString) (enableControl useVirtualKneeJoints : Bool)
    (maxTorque jointVelocityLimit : ℚ) : Option DogBotHWInterface :=
  (constructLoop ext useVirtualKneeJoints joint_names []).map fun acts =>
    { joint_names_ := joint_names
      num_joints_ := 0
      urdf_model_ := some urdf_model
      use_rosparam_joint_limits_ := false
      use_soft_limits_if_available_ := false
      joint_position_ := []
      joint_velocity_ := []
      joint_effort_ := []
      joint_position_command_ := []
      joint_velocity_command_ := []
      joint_effort_command_ := []
      joint_position_lower_limits_ := []
      joint_position_upper_limits_ := []
      joint_velocity_limits_ := []
      joint_effort_limits_ := []
      pos_jnt_sat_interface_ := []
      vel_jnt_sat_interface_ := []
      eff_jnt_sat_interface_ := []
      pos_jnt_soft_limits_ := []
      vel_jnt_soft_limits_ := []
      eff_jnt_soft_limits_ := []
      m_enableControl := enableControl
      m_useVirtualKneeJoints := useVirtualKneeJoints
      m_maxTorque := maxTorque
      m_jointVelocityLimit := jointVelocityLimit
      m_actuators := acts }

/-! ## `init` and `registerJointLimits` -/

/-- The call `v.resize(n, x)` on a `std::vector<double>`. -/
def resize (v : List ℚ) (n : Nat) (x : ℚ) : List ℚ :=
  v.take n ++ List.replicate (n - v.length) x

/-- The default values `registerJointLimits` stores first (source lines 179 to 182). -/
def setDefaultLimits (st : DogBotHWInterface) (joint_id : Nat) : DogBotHWInterface :=
  { st with
    joint_position_lower_limits_ := st.joint_position_lower_limits_.set joint_id (-DBL_MAX)
    joint_position_upper_limits_ := st.joint_position_upper_limits_.set joint_id DBL_MAX
    joint_velocity_limits_ := st.joint_velocity_limits_.set joint_id DBL_MAX
    joint_effort_limits_ := st.joint_effort_limits_.set joint_id DBL_MAX }

/-- The limits found for a joint: the locals `has_joint_limits`, `joint_limits`,
`has_soft_limits` and `soft_limits` of `registerJointLimits` at source line 257. -/
structure FoundLimits where
  has_joint_limits : Bool
  joint_limits : JointLimits
  has_soft_limits : Bool
  soft_limits : SoftJointLimits

/-- The lookups of `registerJointLimits` (source lines 185 to 254); `none` when the function
returns early because there is no URDF model or the model has no joint of that name. -/
def lookupLimits (ext : External) (st : DogBotHWInterface) (joint_id : Nat) :
    Option FoundLimits :=
  match st.urdf_model_ with
  | none => none
  | some urdf_model =>
    match urdf_model (st.joint_names_.getD joint_id []) with
    | none => none
    | some urdf_joint =>
      -- Get limits from URDF
      let r1 := ext.getJointLimitsUrdf urdf_joint JointLimits.default
      -- Get limits from ROS param
      let r2 := if st.use_rosparam_joint_limits_ then
                  ext.getJointLimitsParam (st.joint_names_.getD joint_id []) r1.2
                else (false, r1.2)
      -- Get soft limits from URDF
      let r3 := if st.use_soft_limits_if_available_ then
                  ext.getSoftJointLimits urdf_joint SoftJointLimits.default
                else (false, SoftJointLimits.default)
      some { has_joint_limits := r1.1 || r2.1, joint_limits := r2.2,
             has_soft_limits := r3.1, soft_limits := r3.2 }

/-- The position limits are reduced by `epsilon` when present (source lines 263 to 267):
the statements `min_position += epsilon` and `max_position -= epsilon` in double
arithmetic. A limit of magnitude `2` or more is left as it is by the rounding. -/
def reducePositionLimits (joint_limits : JointLimits) : JointLimits :=
  if joint_limits.has_position_limits then
    { joint_limits with
      min_position := roundDouble (joint_limits.min_position + DBL_EPSILON)
      max_position := roundDouble (joint_limits.max_position - DBL_EPSILON) }
  else joint_limits

/-- The limits that are available are copied into the limit arrays (source lines 263 to
283). -/
def copyLimits (st : DogBotHWInterface) (joint_id : Nat) (joint_limits : JointLimits) :
    DogBotHWInterface :=
  let st := if joint_limits.has_position_limits then
      { st with
        joint_position_lower_limits_ :=
          st.joint_position_lower_limits_.set joint_id joint_limits.min_position
        joint_position_upper_limits_ :=
          st.joint_position_upper_limits_.set joint_id joint_limits.max_position }
    else st
  let st := if joint_limits.has_velocity_limits then
      { st with joint_velocity_limits_ :=
          st.joint_velocity_limits_.set joint_id joint_limits.max_velocity }
    else st
  if joint_limits.has_effort_limits then
    { st with joint_effort_limits_ :=
        st.joint_effort_limits_.set joint_id joint_limits.max_effort }
  else st

/-- The handles are registered, in the soft-limits interfaces when soft limits were found
and in the saturation interfaces otherwise (source lines 285 to 310). The three joint handles
passed by `init` are determined by `joint_id`: their name is `joint_names_[joint_id]` and
their pointers refer to cell `joint_id` of the arrays. -/
def registerLimitHandles (st : DogBotHWInterface) (joint_id : Nat) (joint_limits : JointLimits)
    (has_soft_limits : Bool) (soft_limits : SoftJointLimits) : DogBotHWInterface :=
  if has_soft_limits then
    let h : SoftLimitsHandle :=
      { name := st.joint_names_.getD joint_id [], joint_id := joint_id, limits := joint_limits,
        soft_limits := soft_limits, hstate := none }
    { st with
      pos_jnt_soft_limits_ := registerHandle SoftLimitsHandle.name st.pos_jnt_soft_limits_ h
      vel_jnt_soft_limits_ := registerHandle SoftLimitsHandle.name st.vel_jnt_soft_limits_ h
      eff_jnt_soft_limits_ := registerHandle SoftLimitsHandle.name st.eff_jnt_soft_limits_ h }
  else
    let h : SaturationHandle :=
      { name := st.joint_names_.getD joint_id [], joint_id := joint_id, limits := joint_limits,
        hstate := none }
    { st with
      pos_jnt_sat_interface_ := registerHandle SaturationHandle.name st.pos_jnt_sat_interface_ h
      vel_jnt_sat_interface_ := registerHandle SaturationHandle.name st.vel_jnt_sat_interface_ h
      eff_jnt_sat_interface_ := registerHandle SaturationHandle.name st.eff_jnt_sat_interface_ h }

/-- The member function `registerJointLimits` for the joint `joint_id` (source lines 173 to
311), as the sequence of its stages. -/
def registerJointLimits (ext : External) (st : DogBotHWInterface) (joint_id : Nat) :
    DogBotHWInterface :=
  let st := setDefaultLimits st joint_id
  match lookupLimits ext st joint_id with
  | none => st
  | some found =>
    -- Quit if no limits were found in URDF or rosparam server
    if found.has_joint_limits = false then st
    else
      let joint_limits := reducePositionLimits found.joint_limits
      registerLimitHandles (copyLimits st joint_id joint_limits) joint_id joint_limits
        found.has_soft_limits found.soft_limits

/-- The loop of `init` over the joints (source lines 139 to 163). Of its body the embedding
keeps `registerJointLimits`; the state and command handles it registers only publish the
addresses of the array cells to the controllers. -/
def initLoop (ext : External) : Nat → DogBotHWInterface → DogBotHWInterface
  | 0, st => st
  | n + 1, st => registerJointLimits ext (initLoop ext n st) n

/-- The member function `init` (source lines 117 to 171). -/
def init (ext : External) (st : DogBotHWInterface) : DogBotHWInterface :=
  let n := st.joint_names_.length
  initLoop ext n
    { st with
      num_joints_ := n
      joint_position_ := resize st.joint_position_ n 0
      joint_velocity_ := resize st.joint_velocity_ n 0
      joint_effort_ := resize st.joint_effort_ n 0
      joint_position_command_ := resize st.joint_position_command_ n 0
      joint_velocity_command_ := resize st.joint_velocity_command_ n 0
      joint_effort_command_ := resize st.joint_effort_command_ n 0
      joint_position_lower_limits_ := resize st.joint_position_lower_limits_ n 0
      joint_position_upper_limits_ := resize st.joint_position_upper_limits_ n 0
      joint_velocity_limits_ := resize st.joint_velocity_limits_ n 0
      joint_effort_limits_ := resize st.joint_effort_limits_ n 0 }

/-- The member function `reset` (source lines 313 to 318): both position interfaces forget
their internal state. -/
def reset (st : DogBotHWInterface) : DogBotHWInterface :=
  { st with
    pos_jnt_sat_interface_ := st.pos_jnt_sat_interface_.map fun h => { h with hstate := none }
    pos_jnt_soft_limits_ := st.pos_jnt_soft_limits_.map fun h => { h with hstate := none } }

/-! ## `read` -/

/-- The body of the loop of `read` at index `joint_id` (source lines 391 to 395). -/
def readJoint (world : StateQuery) (theTime : TimePointT) (st : DogBotHWInterface)
    (joint_id : Nat) : Option DogBotHWInterface :=
  match st.m_actuators[joint_id]? with
  | none => none
  | some none => some st
  | some (some jnt) =>
    match st.joint_position_[joint_id]?, st.joint_velocity_[joint_id]?,
        st.joint_effort_[joint_id]? with
    | some p, some v, some e =>
      let r := world jnt theTime (p, v, e)
      some { st with
        joint_position_ := st.joint_position_.set joint_id r.1
        joint_velocity_ := st.joint_velocity_.set joint_id r.2.1
        joint_effort_ := st.joint_effort_.set joint_id r.2.2 }
    | _, _, _ => none

/-- The member function `read` (source lines 387 to 399). -/
def read (world : StateQuery) (st : DogBotHWInterface) (theTime : TimePointT)
    (_elapsed_time : Duration) : Option DogBotHWInterface :=
  if st.m_actuators.length < st.num_joints_ then none
  else forLoop (readJoint world theTime) st.num_joints_ st

/-- A sequence of calls of `read`, each with its own time point, elapsed time and state of
the remote proxies. -/
def readSeq : List (StateQuery × TimePointT × Duration) → DogBotHWInterface →
    Option DogBotHWInterface
  | [], st => some st
  | (world, theTime, elapsed) :: rest, st =>
    (read world st theTime elapsed).bind (readSeq rest)

/-! ## `setWritePeriod` -/

/-- The body of the loop of `setWritePeriod` at index `joint_id` (source lines 405 to 409);
`calls` collects the calls made on the proxies so far. The local `effortLimit` is a `float`:
the double read from `joint_effort_limits_` is narrowed when it is stored, and so is
`m_maxTorque` when it replaces it (the declaration of `m_maxTorque` is not part of the
source file; narrowing leaves a value that already is a float as it is). The proxy is
dereferenced without a test, so a null slot is undefined behaviour. -/
def setWritePeriodJoint (st : DogBotHWInterface) (updateLoopPeriod : ℚ)
    (calls : List ProxyCall) (joint_id : Nat) : Option (List ProxyCall) :=
  match st.m_actuators[joint_id]?, st.joint_effort_limits_[joint_id]? with
  | some jnt, some limit =>
    let effortLimit := toFloat limit
    let effortLimit :=
      if effortLimit.exceeds st.m_maxTorque = true then toFloat st.m_maxTorque
      else effortLimit
    match jnt with
    | none => none
    | some j => some (calls ++ [ProxyCall.SetupTrajectory j updateLoopPeriod effortLimit])
  | _, _ => none

/-- The member function `setWritePeriod` (source lines 402 to 411): the calls it makes on the
proxies, in order. -/
def setWritePeriod (st : DogBotHWInterface) (updateLoopPeriod : ℚ) : Option (List ProxyCall) :=
  forLoop (setWritePeriodJoint st updateLoopPeriod) st.num_joints_ []

/-! ## `write` and `enforceLimits` -/

/-- The call `pos_jnt_sat_interface_.enforceLimits(period)`: every registered handle applies
the saturation policy to the command cell it points to. The handles are visited in list
order; they refer to distinct cells, so the order has no influence on the result. -/
def satInterfaceEnforce (ext : External) (period : Duration) (joint_position_ : List ℚ) :
    List SaturationHandle → List ℚ → List SaturationHandle × List ℚ
  | [], cmd => ([], cmd)
  | h :: hs, cmd =>
    let r := ext.satEnforce h.limits h.hstate period (joint_position_.getD h.joint_id 0)
      (cmd.getD h.joint_id 0)
    let rest := satInterfaceEnforce ext period joint_position_ hs (cmd.set h.joint_id r.2)
    ({ h with hstate := r.1 } :: rest.1, rest.2)

/-- The member function `enforceLimits` (source lines 431 to 463): only the position
saturation interface is enforced; the calls on the other five interfaces are commented out
in the source. -/
def enforceLimits (ext : External) (st : DogBotHWInterface) (period : Duration) :
    DogBotHWInterface :=
  let r := satInterfaceEnforce ext period st.joint_position_ st.pos_jnt_sat_interface_
    st.joint_position_command_
  { st with pos_jnt_sat_interface_ := r.1, joint_position_command_ := r.2 }

/-- The body of the loop of `write` at index `joint_id` (source lines 423 to 427). -/
def writeJoint (st : DogBotHWInterface) (calls : List ProxyCall) (joint_id : Nat) :
    Option (List ProxyCall) :=
  match st.m_actuators[joint_id]? with
  | none => none
  | some none => some calls
  | some (some jnt) =>
    match st.joint_position_command_[joint_id]? with
    | none => none
    | some c => some (calls ++ [ProxyCall.DemandTrajectory jnt c])

/-- The member function `write` (source lines 414 to 429): the state it leaves and the calls
it makes on the proxies, in order. -/
def write (ext : External) (st : DogBotHWInterface) (_theTime : TimePointT)
    (elapsed_time : Duration) : Option (DogBotHWInterface × List ProxyCall) :=
  if st.m_enableControl = false then some (st, [])
  else
    let st1 := enforceLimits ext st elapsed_time
    if st1.m_actuators.length < st1.num_joints_ then none
    else (forLoop (writeJoint st1) st1.num_joints_ []).map fun calls => (st1, calls)

/-! ## `main` of `dtservo.cc` -/

/-- The packet types `main` registers a handler for. -/
inductive ComsPacketTypeT where
  | CPT_PWMState
  deriving DecidableEq, Repr

/-- The calls `main` makes on the `SerialComsC` object. -/
inductive ComsCall where
  | SetLogger
  | Open (devFilename : CString)
  | SetHandler (packetType : ComsPacketTypeT)
  deriving DecidableEq, Repr

/-- Where the control of `main` is: before the call of `Open`, at the test of its result,
inside `while(1)`, or returned with an exit code. -/
inductive MainPc where
  | entry
  | opened (ok : Bool)
  | looping
  | returned (code : Int)
  deriving DecidableEq, Repr

/-- The state of a run of `main`: the control point, the calls made on the serial link so
far and the number of completed `sleep(1)` calls. -/
structure MainState where
  pc : MainPc
  calls : List ComsCall
  slept : Nat
  deriving DecidableEq, Repr

/-- The device file name `main` opens (source lines 14 to 16): `argv[1]` when an argument
is given, `/dev/ttyACM1` otherwise. -/
def devFilename (nargs : Int) (argv : List CString) : CString :=
  if nargs > 1 then argv.getD 1 [] else "/dev/ttyACM1".toList

/-- One step of `main` (source lines 6 to 68). `Open` is the outcome of `SerialComsC::Open`
as a function of the device file name. -/
def mainStep (Open : CString → Bool) (nargs : Int) (argv : List CString) (s : MainState) :
    MainState :=
  match s.pc with
  | MainPc.entry =>
    { s with pc := MainPc.opened (Open (devFilename nargs argv))
             calls := s.calls ++ [ComsCall.SetLogger, ComsCall.Open (devFilename nargs argv)] }
  | MainPc.opened false => { s with pc := MainPc.returned 1 }
  | MainPc.opened true =>
    { s with pc := MainPc.looping
             calls := s.calls ++ [ComsCall.SetHandler ComsPacketTypeT.CPT_PWMState] }
  | MainPc.looping => { s with slept := s.slept + 1 }
  | MainPc.returned _ => s

/-- The state of `main` after `n` steps from its entry. -/
def mainRun (Open : CString → Bool) (nargs : Int) (argv : List CString) : Nat → MainState
  | 0 => { pc := MainPc.entry, calls := [], slept := 0 }
  | n + 1 => mainStep Open nargs argv (mainRun Open nargs argv n)

/-! ## Predicates used in the statements -/

/-- The pattern `pat` occurs in `s` at position `i`. -/
def occursAt (s pat : CString) (i : Nat) : Prop := (s.drop i).take pat.length = pat

/-- The array sizes the loops of `read`, `write` and `setWritePeriod` rely on. -/
def WellSized (st : DogBotHWInterface) : Prop :=
  st.num_joints_ ≤ st.m_actuators.length ∧
  st.num_joints_ ≤ st.joint_position_.length ∧
  st.num_joints_ ≤ st.joint_velocity_.length ∧
  st.num_joints_ ≤ st.joint_effort_.length ∧
  st.num_joints_ ≤ st.joint_position_command_.length ∧
  st.num_joints_ ≤ st.joint_effort_limits_.length

/-- The state `b` differs from `a` at most in the three state arrays. -/
def OnlyStateArraysChanged (a b : DogBotHWInterface) : Prop :=
  b = { a with joint_position_ := b.joint_position_
               joint_velocity_ := b.joint_velocity_
               joint_effort_ := b.joint_effort_ }

/-! ### The words of the specification for the bridge loop -/

/-- One demand for each non-null proxy among the first `n` slots, in increasing index order,
each carrying the position command of its own index. -/
def demandsOf (m_actuators : List (Option JointC)) (cmd : List ℚ) (n : Nat) : List ProxyCall :=
  (List.range n).filterMap fun i =>
    match m_actuators[i]? with
    | some (some jnt) => some (ProxyCall.DemandTrajectory jnt (cmd.getD i 0))
    | _ => none

/-- The number of non-null proxies among the first `n` slots. -/
def nonNullCount (m_actuators : List (Option JointC)) (n : Nat) : Nat :=
  ((m_actuators.take n).filter fun slot => slot.isSome).length

/-- The state `b` agrees with `a` on everything but the four limit arrays and the six limit
interfaces, and the limit arrays keep their sizes: the footprint of `registerJointLimits`. -/
def OnlyLimitsChanged (a b : DogBotHWInterface) : Prop :=
  b = { a with
        joint_position_lower_limits_ := b.joint_position_lower_limits_
        joint_position_upper_limits_ := b.joint_position_upper_limits_
        joint_velocity_limits_ := b.joint_velocity_limits_
        joint_effort_limits_ := b.joint_effort_limits_
        pos_jnt_sat_interface_ := b.pos_jnt_sat_interface_
        vel_jnt_sat_interface_ := b.vel_jnt_sat_interface_
        eff_jnt_sat_interface_ := b.eff_jnt_sat_interface_
        pos_jnt_soft_limits_ := b.pos_jnt_soft_limits_
        vel_jnt_soft_limits_ := b.vel_jnt_soft_limits_
        eff_jnt_soft_limits_ := b.eff_jnt_soft_limits_ } ∧
  b.joint_position_lower_limits_.length = a.joint_position_lower_limits_.length ∧
  b.joint_position_upper_limits_.length = a.joint_position_upper_limits_.length ∧
  b.joint_velocity_limits_.length = a.joint_velocity_limits_.length ∧
  b.joint_effort_limits_.length = a.joint_effort_limits_.length

/-- The slot the constructor fills for a configured joint name: the proxy that
`GetJointByName` finds under the resolved actuator name, or null. -/
def slotOf (ext : External) (useVirtualKneeJoints : Bool) (name : CString) : Option JointC :=
  match resolveActuatorName useVirtualKneeJoints name with
  | some (actname, _) => ext.GetJointByName actname
  | none => none

/-- The states the bridge passes through once `init` has run on the constructed object
`st0`: the host loop calls `read`, `write` and `reset`, and between the calls the controllers
store commands through the handles `init` registered, which changes the contents of the
command arrays and not their sizes. `setWritePeriod` changes no member. -/
inductive Reachable (ext : External) (st0 : DogBotHWInterface) : DogBotHWInterface → Prop
  | init : Reachable ext st0 (init ext st0)
  | read {st st' : DogBotHWInterface} (world : StateQuery) (theTime : TimePointT)
      (elapsed : Duration) :
      Reachable ext st0 st → read world st theTime elapsed = some st' → Reachable ext st0 st'
  | write {st st' : DogBotHWInterface} {calls : List ProxyCall} (theTime : TimePointT)
      (elapsed : Duration) :
      Reachable ext st0 st → write ext st theTime elapsed = some (st', calls) →
      Reachable ext st0 st'
  | reset {st : DogBotHWInterface} : Reachable ext st0 st → Reachable ext st0 (reset st)
  | command {st : DogBotHWInterface} (p v e : List ℚ) :
      Reachable ext st0 st →
      p.length = st.joint_position_command_.length →
      v.length = st.joint_velocity_command_.length →
      e.length = st.joint_effort_command_.length →
      Reachable ext st0 { st with joint_position_command_ := p
                                  joint_velocity_command_ := v
                                  joint_effort_command_ := e }

/-- The joint count and every per-joint vector have size `n`. -/
def SizedFor (n : Nat) (st : DogBotHWInterface) : Prop :=
  st.num_joints_ = n ∧ st.m_actuators.length = n ∧
  st.joint_position_.length = n ∧ st.joint_velocity_.length = n ∧
  st.joint_effort_.length = n ∧
  st.joint_position_command_.length = n ∧ st.joint_velocity_command_.length = n ∧
  st.joint_effort_command_.length = n ∧
  st.joint_position_lower_limits_.length = n ∧ st.joint_position_upper_limits_.length = n ∧
  st.joint_velocity_limits_.length = n ∧ st.joint_effort_limits_.length = n

/-- Every null slot among the joints holds the state `(0, 0, 0)`. -/
def NullSlotsZero (st : DogBotHWInterface) : Prop :=
  ∀ i, i < st.num_joints_ → st.m_actuators[i]? = some none →
    st.joint_position_[i]? = some 0 ∧ st.joint_velocity_[i]? = some 0 ∧
    st.joint_effort_[i]? = some 0

/-! ## A sample configuration -/

/-- A sample environment: the DogBot API knows the actuators `front_left_hip` and
`virtual_front_left_knee`; every URDF joint has position limits `[-1, 1]` and effort limit
`3`, and soft limits `[-1/2, 1/2]`; both policies clamp the command into their range. -/
def sampleExternal : External where
  GetJointByName := fun name =>
    if name = "front_left_hip".toList then some 1
    else if name = "virtual_front_left_knee".toList then some 2
    else none
  getJointLimitsUrdf := fun _ l =>
    (true, { l with has_position_limits := true, min_position := -1, max_position := 1,
                    has_effort_limits := true, max_effort := 3 })
  getJointLimitsParam := fun _ l => (false, l)
  getSoftJointLimits := fun _ _ =>
    (true, { min_position := -1 / 2, max_position := 1 / 2, k_position := 1, k_velocity := 1 })
  satEnforce := fun limits _ _ _ cmd =>
    (some (max limits.min_position (min limits.max_position cmd)),
      max limits.min_position (min limits.max_position cmd))
  softEnforce := fun _ soft _ _ _ cmd =>
    (some (max soft.min_position (min soft.max_position cmd)),
      max soft.min_position (min soft.max_position cmd))

/-- A sample URDF model with the joints `front_left_hip_joint` and `front_left_knee_joint`. -/
def sampleUrdf : CString → Option UrdfJoint := fun name =>
  if name = "front_left_hip_joint".toList then some 0
  else if name = "front_left_knee_joint".toList then some 1
  else none

/-- A remote state in which every proxy reports position `1/2`, velocity `1/4` and effort
`1/8` at every time. -/
def sampleWorld : StateQuery := fun _ _ _ => (1 / 2, 1 / 4, 1 / 8)

/-- The bridge after the constructor and `init`, or `none` when the constructor throws. -/
def startup (ext : External) (urdf_model : CString → Option UrdfJoint)
    (joint_names : List CString) (enableControl useVirtualKneeJoints : Bool)
    (maxTorque jointVelocityLimit : ℚ) : Option DogBotHWInterface :=
  (construct ext urdf_model joint_names enableControl useVirtualKneeJoints maxTorque
    jointVelocityLimit).map (init ext)

/-- The limits record of the sample joints. -/
def sampleLimits : JointLimits :=
  { min_position := -1, max_position := 1, max_velocity := 0, max_effort := 3,
    has_position_limits := true, has_velocity_limits := false, has_effort_limits := true }

/-- A sample bridge with two joints, both with a proxy: joint `0` has URDF limits and a
saturation handle, joint `1` is left at the default limits; `max_torque` is `2`. -/
def sampleState : DogBotHWInterface :=
  { joint_names_ := ["front_left_hip_joint".toList, "front_left_knee_joint".toList]
    num_joints_ := 2
    urdf_model_ := some sampleUrdf
    use_rosparam_joint_limits_ := false
    use_soft_limits_if_available_ := false
    joint_position_ := [0, 0]
    joint_velocity_ := [0, 0]
    joint_effort_ := [0, 0]
    joint_position_command_ := [5, 1 / 4]
    joint_velocity_command_ := [0, 0]
    joint_effort_command_ := [0, 0]
    joint_position_lower_limits_ := [-1, -DBL_MAX]
    joint_position_upper_limits_ := [1, DBL_MAX]
    joint_velocity_limits_ := [DBL_MAX, DBL_MAX]
    joint_effort_limits_ := [3, DBL_MAX]
    pos_jnt_sat_interface_ :=
      [{ name := "front_left_hip_joint".toList, joint_id := 0, limits := sampleLimits,
         hstate := none }]
    vel_jnt_sat_interface_ := []
    eff_jnt_sat_interface_ := []
    pos_jnt_soft_limits_ := []
    vel_jnt_soft_limits_ := []
    eff_jnt_soft_limits_ := []
    m_enableControl := true
    m_useVirtualKneeJoints := true
    m_maxTorque := 2
    m_jointVelocityLimit := 250
    m_actuators := [some 1, some 2] }

/-- The sample bridge with the proxy of joint `0` missing. -/
def sampleNullState : DogBotHWInterface :=
  { sampleState with m_actuators := [none, some 2] }

/-- The sample bridge with control disabled. -/
def sampleDisabledState : DogBotHWInterface :=
  { sampleState with m_enableControl := false }

/-! ### The words of the specification for limit enforcement -/

/-- The specification's words for `setWritePeriod`: one `SetupTrajectory` call per joint with
the period and the effort limit `min(effortLimit[i], maxTorque)`. -/
def claimedSetupCalls (st : DogBotHWInterface) (updateLoopPeriod : ℚ) : List ProxyCall :=
  (List.range st.num_joints_).filterMap fun i =>
    match st.m_actuators[i]?, st.joint_effort_limits_[i]? with
    | some (some jnt), some limit =>
      some (ProxyCall.SetupTrajectory jnt updateLoopPeriod
        (CFloat.fin (min limit st.m_maxTorque)))
    | _, _ => none

/-- The double nearest to the decimal `0.1`. -/
def tenthDouble : ℚ := 3602879701896397 / 36028797018963968

/-- The sample environment with a URDF effort limit of `0.1`. -/
def tenthExternal : External :=
  { sampleExternal with
    getJointLimitsUrdf := fun _ l =>
      (true, { l with has_position_limits := true, min_position := -1, max_position := 1,
                      has_effort_limits := true, max_effort := tenthDouble }) }

/-- The bridge the constructor and `init` build for the joint `front_left_hip_joint` with
the URDF effort limit `0.1` and `max_torque` equal to `2`. -/
def sampleTenthState : DogBotHWInterface :=
  (startup tenthExternal sampleUrdf ["front_left_hip_joint".toList] true false 2 250).getD
    sampleState

/-! # Theorems -/

/-! ## Binary floating point -/

theorem log2Loop_spec : ∀ (fuel n : Nat), 0 < n → n < 2 ^ (fuel + 1) →
    2 ^ log2Loop fuel n ≤ n ∧ n < 2 ^ (log2Loop fuel n + 1) := by
  intro fuel
  induction fuel with
  | zero =>
    intro n h0 h1
    simp only [log2Loop]
    omega
  | succ fuel ih =>
    intro n h0 h1
    by_cases h2 : n < 2
    · simp only [log2Loop, h2, if_true]
      omega
    · simp only [log2Loop, h2, if_false]
      have hpow : 2 ^ (fuel + 1 + 1) = 2 * 2 ^ (fuel + 1) := by rw [Nat.pow_succ]; omega
      obtain ⟨a, b⟩ := ih (n / 2) (by omega) (by omega)
      have e1 : 2 ^ (log2Loop fuel (n / 2) + 1) = 2 * 2 ^ log2Loop fuel (n / 2) := by
        rw [Nat.pow_succ]; omega
      have e2 : 2 ^ (log2Loop fuel (n / 2) + 1 + 1) = 2 * 2 ^ (log2Loop fuel (n / 2) + 1) := by
        rw [Nat.pow_succ]; omega
      omega

/-- The function `floorLog2` is the integer part of the binary logarithm. -/
theorem floorLog2_spec (n : Nat) (h : 0 < n) :
    2 ^ floorLog2 n ≤ n ∧ n < 2 ^ (floorLog2 n + 1) := by
  apply log2Loop_spec n n h
  have h1 : n < 2 ^ n := Nat.lt_two_pow n
  have h2 : 2 ^ (n + 1) = 2 * 2 ^ n := by rw [Nat.pow_succ]; omega
  omega

/-- The rounding functions agree with IEEE 754 on known values: `0.1` rounds to the double
`0x3FB999999999999A`, the double `0.1` narrows to the float `0x3DCCCCCD`, one third narrows
to `0x3EAAAAAB`, the tie `3 - 2^-52` rounds back to `3`, the double `1 - 2^-52` is kept, and
a value below half the least subnormal float narrows to zero. -/
theorem rounding_checks :
    roundDouble (1 / 10) = tenthDouble ∧
    toFloat tenthDouble = CFloat.fin (13421773 / 2 ^ 27) ∧
    toFloat (1 / 3) = CFloat.fin (11184811 / 2 ^ 25) ∧
    roundDouble (3 - DBL_EPSILON) = 3 ∧
    roundDouble (1 - DBL_EPSILON) = 1 - DBL_EPSILON ∧
    toFloat (1 / 2 ^ 151) = CFloat.fin 0 ∧
    toFloat 2 = CFloat.fin 2 := by
  refine ⟨by decide!, by decide!, by decide!, by decide!, by decide!, by decide!, by decide!⟩

/-! ## Name resolution -/

theorem rfindLoop_hit (s pat : CString) (p : Nat) (h : (s.drop p).take pat.length = pat) :
    rfindLoop s pat p = p := by
  cases p with
  | zero =>
    have h0 : s.take pat.length = pat := by simpa using h
    simp [rfindLoop, h0]
  | succ p => simp [rfindLoop, h]

theorem rfindLoop_miss (s pat : CString) (p : Nat)
    (h : (s.drop (p + 1)).take pat.length ≠ pat) :
    rfindLoop s pat (p + 1) = rfindLoop s pat p := by
  simp [rfindLoop, h]

theorem rfind_knee_joint (L : CString) :
    rfind (L ++ "_knee_joint".toList) "_joint".toList = L.length + 5 := by
  have hlen : ("_joint".toList).length = 6 := rfl
  have hlen2 : ("_knee_joint".toList).length = 11 := rfl
  unfold rfind
  rw [if_pos (by simp [hlen, hlen2])]
  have e : (L ++ "_knee_joint".toList).length - ("_joint".toList).length = L.length + 5 := by
    simp [hlen, hlen2]
  rw [e]
  apply rfindLoop_hit
  rw [List.drop_append]
  rfl

theorem rfind_knee (L : CString) :
    rfind (L ++ "_knee".toList) "_".toList = L.length := by
  have hlen : ("_".toList).length = 1 := rfl
  have hlen2 : ("_knee".toList).length = 5 := rfl
  unfold rfind
  rw [if_pos (by simp [hlen, hlen2])]
  have e : (L ++ "_knee".toList).length - ("_".toList).length = L.length + 3 + 1 := by
    simp [hlen, hlen2]
  rw [e]
  rw [rfindLoop_miss _ _ _
    (by rw [show L.length + 3 + 1 = L.length + 4 from rfl, List.drop_append]; decide)]
  rw [show L.length + 3 = L.length + 2 + 1 from rfl]
  rw [rfindLoop_miss _ _ _
    (by rw [show L.length + 2 + 1 = L.length + 3 from rfl, List.drop_append]; decide)]
  rw [show L.length + 2 = L.length + 1 + 1 from rfl]
  rw [rfindLoop_miss _ _ _
    (by rw [show L.length + 1 + 1 = L.length + 2 from rfl, List.drop_append]; decide)]
  rw [rfindLoop_miss _ _ _ (by rw [List.drop_append]; decide)]
  apply rfindLoop_hit
  rw [show L.length = L.length + 0 from rfl, List.drop_append]
  rfl


theorem occursAt_bound {s pat : CString} {i : Nat} (hp : pat ≠ []) (h : occursAt s pat i) :
    i + pat.length ≤ s.length := by
  have hl := congrArg List.length h
  simp only [List.length_take, List.length_drop] at hl
  have hpos : 0 < pat.length := List.length_pos.mpr hp
  omega

theorem occursAt_nil {pat : CString} (hp : pat ≠ []) (j : Nat) : ¬ occursAt [] pat j := by
  intro h
  have := occursAt_bound hp h
  have hpos : 0 < pat.length := List.length_pos.mpr hp
  have hz : ([] : CString).length = 0 := rfl
  omega

theorem occursAt_cons_succ (c : Char) (cs pat : CString) (j : Nat) :
    occursAt (c :: cs) pat (j + 1) ↔ occursAt cs pat j := by
  simp [occursAt]

theorem rfindLoop_spec (s pat : CString) (p : Nat) :
    (rfindLoop s pat p = npos ∧ ∀ j, j ≤ p → ¬ occursAt s pat j) ∨
    (∃ i, i ≤ p ∧ rfindLoop s pat p = i ∧ occursAt s pat i ∧
      ∀ j, i < j → j ≤ p → ¬ occursAt s pat j) := by
  induction p with
  | zero =>
    by_cases h : s.take pat.length = pat
    · right
      refine ⟨0, le_refl _, by simp [rfindLoop, h], by simpa [occursAt] using h, ?_⟩
      intro j h1 h2; omega
    · left
      refine ⟨by simp [rfindLoop, h], ?_⟩
      intro j hj
      have : j = 0 := by omega
      subst this
      simpa [occursAt] using h
  | succ p ih =>
    by_cases h : (s.drop (p + 1)).take pat.length = pat
    · right
      refine ⟨p + 1, le_refl _, by simp [rfindLoop, h], h, ?_⟩
      intro j h1 h2; omega
    · rw [rfindLoop_miss s pat p h]
      rcases ih with ⟨h1, h2⟩ | ⟨i, hi, h1, h2, h3⟩
      · left
        refine ⟨h1, ?_⟩
        intro j hj
        by_cases hj2 : j = p + 1
        · subst hj2; exact h
        · exact h2 j (by omega)
      · right
        refine ⟨i, by omega, h1, h2, ?_⟩
        intro j hj1 hj2
        by_cases hj3 : j = p + 1
        · subst hj3; exact h
        · exact h3 j hj1 (by omega)

theorem rfind_spec (s pat : CString) (hp : pat ≠ []) :
    (rfind s pat = npos ∧ ∀ j, ¬ occursAt s pat j) ∨
    (∃ i, rfind s pat = i ∧ i + pat.length ≤ s.length ∧ occursAt s pat i ∧
      ∀ j, i < j → ¬ occursAt s pat j) := by
  unfold rfind
  by_cases hl : pat.length ≤ s.length
  · rw [if_pos hl]
    rcases rfindLoop_spec s pat (s.length - pat.length) with ⟨h1, h2⟩ | ⟨i, hi, h1, h2, h3⟩
    · left
      refine ⟨h1, ?_⟩
      intro j hj
      have := occursAt_bound hp hj
      exact h2 j (by omega) hj
    · right
      refine ⟨i, h1, occursAt_bound hp h2, h2, ?_⟩
      intro j hj hocc
      have := occursAt_bound hp hocc
      exact h3 j hj (by omega) hocc
  · rw [if_neg hl]
    left
    refine ⟨rfl, ?_⟩
    intro j hj
    have := occursAt_bound hp hj
    omega

theorem lastOccurrence_spec (pat : CString) (hp : pat ≠ []) (s : CString) :
    (lastOccurrence pat s = none ∧ ∀ j, ¬ occursAt s pat j) ∨
    (∃ i, lastOccurrence pat s = some i ∧ occursAt s pat i ∧
      ∀ j, i < j → ¬ occursAt s pat j) := by
  induction s with
  | nil =>
    left
    exact ⟨by simp [lastOccurrence, hp], occursAt_nil hp⟩
  | cons c cs ih =>
    rcases ih with ⟨h1, h2⟩ | ⟨i, h1, h2, h3⟩
    · by_cases h : (c :: cs).take pat.length = pat
      · right
        refine ⟨0, by simp [lastOccurrence, h1, h], by simpa [occursAt] using h, ?_⟩
        intro j hj
        obtain ⟨k, rfl⟩ : ∃ k, j = k + 1 := ⟨j - 1, by omega⟩
        rw [occursAt_cons_succ]
        exact h2 k
      · left
        refine ⟨by simp [lastOccurrence, h1, h], ?_⟩
        intro j
        cases j with
        | zero => simpa [occursAt] using h
        | succ k => rw [occursAt_cons_succ]; exact h2 k
    · right
      refine ⟨i + 1, by simp [lastOccurrence, h1], (occursAt_cons_succ c cs pat i).mpr h2, ?_⟩
      intro j hj
      obtain ⟨k, rfl⟩ : ∃ k, j = k + 1 := ⟨j - 1, by omega⟩
      rw [occursAt_cons_succ]
      exact h3 k (by omega)

theorem rfind_eq_lastOccurrence (s pat : CString) (hp : pat ≠ []) :
    rfind s pat = (lastOccurrence pat s).getD npos := by
  rcases rfind_spec s pat hp with ⟨r1, r2⟩ | ⟨i, r1, _, r3, r4⟩
  · rcases lastOccurrence_spec pat hp s with ⟨l1, _⟩ | ⟨k, _, l2, _⟩
    · rw [r1, l1]; rfl
    · exact absurd l2 (r2 k)
  · rcases lastOccurrence_spec pat hp s with ⟨_, l2⟩ | ⟨k, l1, l2, l3⟩
    · exact absurd r3 (l2 i)
    · rw [r1, l1]
      simp only [Option.getD_some]
      by_contra hne
      rcases Nat.lt_or_gt_of_ne hne with h | h
      · exact r4 k h l2
      · exact l3 i h r3

theorem lastOccurrence_bound (pat : CString) (hp : pat ≠ []) (s : CString) (i : Nat)
    (h : lastOccurrence pat s = some i) : i + pat.length ≤ s.length := by
  rcases lastOccurrence_spec pat hp s with ⟨l1, _⟩ | ⟨k, l1, l2, _⟩
  · rw [l1] at h; cases h
  · rw [l1] at h
    cases h
    exact occursAt_bound hp l2


theorem joint_ne_nil : "_joint".toList ≠ [] := by decide
theorem underscore_ne_nil : "_".toList ≠ [] := by decide

theorem npos_eq : npos = 18446744073709551615 := by decide

theorem strippedName_length_le (name : CString) : (strippedName name).length ≤ name.length := by
  unfold strippedName
  split
  · simp [List.length_take]
  · exact le_refl _

theorem substr_stripped (name : CString) (h : name.length < npos) :
    substr name 0 (rfind name "_joint".toList) = some (strippedName name) ∧
    (strippedName name).length ≤ rfind name "_joint".toList ∧
    rfind name "_joint".toList < 2 ^ 64 := by
  rw [rfind_eq_lastOccurrence name _ joint_ne_nil]
  unfold strippedName substr
  rw [npos_eq] at h
  cases hl : lastOccurrence "_joint".toList name with
  | none =>
    simp only [Option.getD_none, npos_eq, List.drop_zero]
    refine ⟨?_, by omega, by omega⟩
    simp only [Nat.not_lt_zero, if_false]
    rw [List.take_of_length_le (by omega)]
  | some i =>
    have hb := lastOccurrence_bound _ joint_ne_nil name i hl
    simp only [Option.getD_some, List.drop_zero, List.length_take]
    refine ⟨by simp, by omega, by omega⟩

theorem substr_legName (a : CString) (h : a.length < npos) :
    substr a 0 (rfind a "_".toList) = some (legNameOf a) := by
  rw [rfind_eq_lastOccurrence a _ underscore_ne_nil]
  unfold legNameOf substr
  rw [npos_eq] at h
  cases hl : lastOccurrence "_".toList a with
  | none =>
    simp only [Option.getD_none, npos_eq, List.drop_zero, Nat.not_lt_zero, if_false]
    rw [List.take_of_length_le (by omega)]
  | some k => simp

theorem substr_jntType (a : CString) (at_ : Nat) (h1 : a.length ≤ at_) (h2 : at_ < 2 ^ 64) :
    substr a ((rfind a "_".toList + 1) % 2 ^ 64)
      ((at_ + 2 ^ 64 - (rfind a "_".toList + 1) % 2 ^ 64) % 2 ^ 64) = some (jointTypeOf a) := by
  rw [rfind_eq_lastOccurrence a _ underscore_ne_nil]
  unfold jointTypeOf substr
  cases hl : lastOccurrence "_".toList a with
  | none =>
    simp only [Option.getD_none, npos_eq]
    have e1 : (18446744073709551615 + 1) % 2 ^ 64 = 0 := by decide
    rw [e1]
    have e2 : (at_ + 2 ^ 64 - 0) % 2 ^ 64 = at_ := by omega
    rw [e2]
    simp only [Nat.not_lt_zero, if_false, List.drop_zero]
    rw [List.take_of_length_le h1]
  | some k =>
    have hb := lastOccurrence_bound _ underscore_ne_nil a k hl
    have hone : ("_".toList).length = 1 := rfl
    rw [hone] at hb
    simp only [Option.getD_some]
    have e1 : (k + 1) % 2 ^ 64 = k + 1 := Nat.mod_eq_of_lt (by omega)
    rw [e1]
    have e2 : (at_ + 2 ^ 64 - (k + 1)) % 2 ^ 64 = at_ - (k + 1) := by omega
    rw [e2]
    rw [if_neg (by omega)]
    rw [List.take_of_length_le (by simp only [List.length_drop]; omega)]

/-- The constructor resolves every name of admissible length, and what it computes are the
stripped name, its leg part and its type part as the specification words them. -/
theorem resolveActuatorName_eq (flag : Bool) (name : CString) (h : name.length < npos) :
    resolveActuatorName flag name =
      some (if jointTypeOf (strippedName name) = "knee".toList ∧ flag = true then
              "virtual_".toList ++ legNameOf (strippedName name) ++ "_knee".toList
            else strippedName name,
            jointTypeOf (strippedName name)) := by
  obtain ⟨s1, s2, s3⟩ := substr_stripped name h
  have ha : (strippedName name).length < npos :=
    lt_of_le_of_lt (strippedName_length_le name) h
  have s4 := substr_legName (strippedName name) ha
  have s5 := substr_jntType (strippedName name) _ s2 s3
  unfold resolveActuatorName
  simp only [s1, s4, s5, Option.bind_eq_bind, Option.some_bind, bind_pure_comp]
  split <;> rfl


theorem legNameOf_length (a : CString) (ht : (jointTypeOf a).length = 4) :
    (legNameOf a).length + 13 ≠ a.length := by
  unfold legNameOf
  unfold jointTypeOf at ht
  cases hl : lastOccurrence "_".toList a with
  | none => simp
  | some k =>
    rw [hl] at ht
    simp only [List.length_drop] at ht
    simp only [List.length_take]
    omega

/-- C1. For every leg string `L`, the constructor resolves the configured joint name
`L ++ "_knee_joint"` to the actuator name `"virtual_" ++ L ++ "_knee"` when
`useVirtualKneeJoints` is true and to `L ++ "_knee"` when it is false. -/
theorem knee_joint_name_resolution (L : CString) (useVirtualKneeJoints : Bool)
    (hsize : (L ++ "_knee_joint".toList).length < npos) :
    (resolveActuatorName useVirtualKneeJoints (L ++ "_knee_joint".toList)).map Prod.fst =
      some (if useVirtualKneeJoints = true then "virtual_".toList ++ L ++ "_knee".toList
            else L ++ "_knee".toList) := by
  have hlen : (L ++ "_knee_joint".toList).length = L.length + 11 := by
    rw [List.length_append]; rfl
  rw [hlen, npos_eq] at hsize
  have e1 : substr (L ++ "_knee_joint".toList) 0 (L.length + 5) = some (L ++ "_knee".toList) := by
    unfold substr
    rw [if_neg (by omega), List.drop_zero, List.take_append]
    rfl
  have e2 : substr (L ++ "_knee".toList) 0 L.length = some L := by
    unfold substr
    rw [if_neg (by omega), List.drop_zero, List.take_left']
    rfl
  have e3 : (L.length + 1) % 2 ^ 64 = L.length + 1 := Nat.mod_eq_of_lt (by omega)
  have e4 : (L.length + 5 + 2 ^ 64 - (L.length + 1)) % 2 ^ 64 = 4 := by omega
  have e5 : substr (L ++ "_knee".toList) (L.length + 1) 4 = some "knee".toList := by
    unfold substr
    have : (L ++ "_knee".toList).length = L.length + 5 := by rw [List.length_append]; rfl
    rw [if_neg (by omega), List.drop_append]
    rfl
  unfold resolveActuatorName
  simp only [rfind_knee_joint, e1, rfind_knee, e2, e3, e4, e5, Option.bind_eq_bind,
    Option.some_bind, true_and]
  cases useVirtualKneeJoints <;> rfl

/-- C1, at the concrete joint of the specification: `front_left_knee_joint` gives
`virtual_front_left_knee` with the flag and `front_left_knee` without it. -/
theorem knee_joint_name_resolution_witness :
    (resolveActuatorName true "front_left_knee_joint".toList).map Prod.fst =
        some "virtual_front_left_knee".toList ∧
      (resolveActuatorName false "front_left_knee_joint".toList).map Prod.fst =
        some "front_left_knee".toList :=
  ⟨knee_joint_name_resolution "front_left".toList true (by decide),
   knee_joint_name_resolution "front_left".toList false (by decide)⟩

/-- C8. For every configured joint name, with `stripped` the name cut at the last `_joint`
and `type` the part of `stripped` after its last underscore: the joint type computed by the
constructor is `type`; if `useVirtualKneeJoints` is false or `type` is not `knee` the resolved
actuator name is `stripped`; if the flag is true and `type` is `knee` it is
`"virtual_" ++ leg ++ "_knee"`; and the resolved name differs from `stripped` if and only if
the flag is true and `type` is `knee`. -/
theorem virtual_knee_rewrite_iff (useVirtualKneeJoints : Bool) (name : CString)
    (hsize : name.length < npos) :
    ∃ actname : CString,
      resolveActuatorName useVirtualKneeJoints name =
        some (actname, jointTypeOf (strippedName name)) ∧
      ((useVirtualKneeJoints = false ∨ jointTypeOf (strippedName name) ≠ "knee".toList) →
        actname = strippedName name) ∧
      ((useVirtualKneeJoints = true ∧ jointTypeOf (strippedName name) = "knee".toList) →
        actname = "virtual_".toList ++ legNameOf (strippedName name) ++ "_knee".toList) ∧
      (actname ≠ strippedName name ↔
        (useVirtualKneeJoints = true ∧ jointTypeOf (strippedName name) = "knee".toList)) := by
  refine ⟨_, resolveActuatorName_eq useVirtualKneeJoints name hsize, ?_, ?_, ?_⟩
  · intro h
    rw [if_neg]
    rintro ⟨h1, h2⟩
    rcases h with h | h
    · rw [h] at h2; cases h2
    · exact h h1
  · intro h
    rw [if_pos ⟨h.2, h.1⟩]
  · constructor
    · intro hne
      by_contra hc
      apply hne
      rw [if_neg]
      rintro ⟨h1, h2⟩
      exact hc ⟨h2, h1⟩
    · rintro ⟨h1, h2⟩
      rw [if_pos ⟨h2, h1⟩]
      intro heq
      have hl := congrArg List.length heq
      have ht : (jointTypeOf (strippedName name)).length = 4 := by rw [h2]; rfl
      have := legNameOf_length (strippedName name) ht
      simp only [List.length_append] at hl
      have a1 : ("virtual_".toList).length = 8 := rfl
      have a2 : ("_knee".toList).length = 5 := rfl
      omega

/-- C8 at two configured names with the flag on: the knee joint is rewritten, the hip joint
resolves to its stripped name. -/
theorem virtual_knee_rewrite_iff_witness :
    "back_right_knee_joint".toList.length < npos ∧
    resolveActuatorName true "back_right_knee_joint".toList =
      some ("virtual_back_right_knee".toList, "knee".toList) ∧
    resolveActuatorName true "back_right_hip_joint".toList =
      some ("back_right_hip".toList, "hip".toList) := by
  obtain ⟨a, h1, _, h3, _⟩ :=
    virtual_knee_rewrite_iff true "back_right_knee_joint".toList (by decide)
  obtain ⟨b, g1, g2, _, _⟩ :=
    virtual_knee_rewrite_iff true "back_right_hip_joint".toList (by decide)
  refine ⟨by decide, ?_, ?_⟩
  · rw [h1, h3 ⟨rfl, by decide⟩]
    decide
  · rw [g1, g2 (Or.inr (by decide))]
    decide

/-! ## Loops of the bridge -/

theorem forLoop_succ {σ : Type} (body : σ → Nat → Option σ) (n : Nat) (s : σ) :
    forLoop body (n + 1) s = (forLoop body n s).bind (fun t => body t n) := rfl

theorem setWritePeriod_loop (st : DogBotHWInterface) (T : ℚ) :
    ∀ n : Nat, n ≤ st.joint_effort_limits_.length →
      (∀ i, i < n → ∃ j, st.m_actuators[i]? = some (some j)) →
      ∃ calls, forLoop (setWritePeriodJoint st T) n [] = some calls ∧ calls.length = n ∧
        ∀ i, i < n → ∀ j e, st.m_actuators[i]? = some (some j) →
          st.joint_effort_limits_[i]? = some e →
          calls[i]? = some (ProxyCall.SetupTrajectory j T
            (if (toFloat e).exceeds st.m_maxTorque = true then toFloat st.m_maxTorque
              else toFloat e)) := by
  intro n
  induction n with
  | zero =>
    intro _ _
    exact ⟨[], rfl, rfl, fun i hi => absurd hi (Nat.not_lt_zero i)⟩
  | succ n ih =>
    intro hn hact
    obtain ⟨calls, h1, h2, h3⟩ := ih (by omega) (fun i hi => hact i (by omega))
    obtain ⟨jn, hjn⟩ := hact n (by omega)
    have hen : st.joint_effort_limits_[n]? = some (st.joint_effort_limits_[n]) :=
      List.getElem?_eq_getElem (by omega)
    refine ⟨calls ++ [ProxyCall.SetupTrajectory jn T
      (if (toFloat st.joint_effort_limits_[n]).exceeds st.m_maxTorque = true then
        toFloat st.m_maxTorque
        else toFloat st.joint_effort_limits_[n])], ?_, ?_, ?_⟩
    · rw [forLoop_succ, h1]
      simp only [Option.some_bind, setWritePeriodJoint, hjn, hen]
    · simp [h2]
    · intro i hi j e hj he
      by_cases hin : i = n
      · subst hin
        rw [hjn] at hj
        rw [hen] at he
        cases hj
        cases he
        rw [List.getElem?_append_right (by omega), h2, Nat.sub_self]
        rfl
      · rw [List.getElem?_append_left (by omega)]
        exact h3 i (by omega) j e hj he

theorem setWritePeriod_null (st : DogBotHWInterface) (T : ℚ) (i : Nat)
    (hnull : st.m_actuators[i]? = some none) :
    ∀ n : Nat, i < n → ∀ acc, forLoop (setWritePeriodJoint st T) n acc = none := by
  intro n
  induction n with
  | zero => intro h; omega
  | succ n ih =>
    intro hi acc
    rw [forLoop_succ]
    by_cases hin : i = n
    · subst hin
      cases hrun : forLoop (setWritePeriodJoint st T) i acc with
      | none => rfl
      | some calls =>
        cases hel : st.joint_effort_limits_[i]? <;>
          simp [setWritePeriodJoint, hnull, hel]
    · rw [ih (by omega) acc]
      rfl


theorem onlyState_refl (a : DogBotHWInterface) : OnlyStateArraysChanged a a := by
  cases a; rfl

theorem onlyState_trans {a b c : DogBotHWInterface} (h1 : OnlyStateArraysChanged a b)
    (h2 : OnlyStateArraysChanged b c) : OnlyStateArraysChanged a c := by
  unfold OnlyStateArraysChanged at *
  cases a; cases b; cases c
  simp only [DogBotHWInterface.mk.injEq, true_and, and_true] at *
  simp only [h1, h2, and_self]

theorem onlyState_set (a : DogBotHWInterface) (p v e : List ℚ) :
    OnlyStateArraysChanged a { a with joint_position_ := p, joint_velocity_ := v,
                                      joint_effort_ := e } := by
  cases a; rfl

theorem readLoop_spec (world : StateQuery) (t : TimePointT) (st : DogBotHWInterface) :
    ∀ n : Nat, n ≤ st.m_actuators.length → n ≤ st.joint_position_.length →
      n ≤ st.joint_velocity_.length → n ≤ st.joint_effort_.length →
      ∃ st', forLoop (readJoint world t) n st = some st' ∧
        OnlyStateArraysChanged st st' ∧
        st'.joint_position_.length = st.joint_position_.length ∧
        st'.joint_velocity_.length = st.joint_velocity_.length ∧
        st'.joint_effort_.length = st.joint_effort_.length ∧
        (∀ i, n ≤ i → st'.joint_position_[i]? = st.joint_position_[i]? ∧
          st'.joint_velocity_[i]? = st.joint_velocity_[i]? ∧
          st'.joint_effort_[i]? = st.joint_effort_[i]?) ∧
        (∀ i, i < n →
          (st.m_actuators[i]? = some none →
            st'.joint_position_[i]? = st.joint_position_[i]? ∧
            st'.joint_velocity_[i]? = st.joint_velocity_[i]? ∧
            st'.joint_effort_[i]? = st.joint_effort_[i]?) ∧
          (∀ jnt p v e, st.m_actuators[i]? = some (some jnt) →
            st.joint_position_[i]? = some p → st.joint_velocity_[i]? = some v →
            st.joint_effort_[i]? = some e →
            st'.joint_position_[i]? = some (world jnt t (p, v, e)).1 ∧
            st'.joint_velocity_[i]? = some (world jnt t (p, v, e)).2.1 ∧
            st'.joint_effort_[i]? = some (world jnt t (p, v, e)).2.2)) := by
  intro n
  induction n with
  | zero =>
    intro _ _ _ _
    exact ⟨st, rfl, onlyState_refl st, rfl, rfl, rfl, fun i _ => ⟨rfl, rfl, rfl⟩,
      fun i hi => absurd hi (Nat.not_lt_zero i)⟩
  | succ n ih =>
    intro ha hp hv he
    obtain ⟨s1, r1, r2, lp, lv, le, r3, r4⟩ := ih (by omega) (by omega) (by omega) (by omega)
    have hacts : s1.m_actuators = st.m_actuators := by rw [r2]
    rw [forLoop_succ, r1]
    simp only [Option.some_bind]
    obtain ⟨rp, rv, re⟩ := r3 n (le_refl n)
    have hxa : st.m_actuators[n]? = some (st.m_actuators[n]) := List.getElem?_eq_getElem (by omega)
    have hxp : st.joint_position_[n]? = some (st.joint_position_[n]) :=
      List.getElem?_eq_getElem (by omega)
    have hxv : st.joint_velocity_[n]? = some (st.joint_velocity_[n]) :=
      List.getElem?_eq_getElem (by omega)
    have hxe : st.joint_effort_[n]? = some (st.joint_effort_[n]) :=
      List.getElem?_eq_getElem (by omega)
    cases hslot : st.m_actuators[n] with
    | none =>
      rw [hslot] at hxa
      have hs1 : s1.m_actuators[n]? = some none := by rw [hacts]; exact hxa
      refine ⟨s1, by simp only [readJoint, hs1], r2, lp, lv, le,
        fun i hi => r3 i (by omega), ?_⟩
      intro i hi
      by_cases hin : i = n
      · subst hin
        refine ⟨fun _ => ⟨rp, rv, re⟩, ?_⟩
        intro jnt p v e hj
        rw [hxa] at hj
        cases hj
      · exact r4 i (by omega)
    | some jnt =>
      rw [hslot] at hxa
      have hs1 : s1.m_actuators[n]? = some (some jnt) := by rw [hacts]; exact hxa
      have hs2 := rp.trans hxp
      have hs3 := rv.trans hxv
      have hs4 := re.trans hxe
      have hstep : readJoint world t s1 n = some { s1 with
          joint_position_ := s1.joint_position_.set n (world jnt t
            (st.joint_position_[n], st.joint_velocity_[n], st.joint_effort_[n])).1
          joint_velocity_ := s1.joint_velocity_.set n (world jnt t
            (st.joint_position_[n], st.joint_velocity_[n], st.joint_effort_[n])).2.1
          joint_effort_ := s1.joint_effort_.set n (world jnt t
            (st.joint_position_[n], st.joint_velocity_[n], st.joint_effort_[n])).2.2 } := by
        simp only [readJoint, hs1, hs2, hs3, hs4]
      refine ⟨_, hstep, onlyState_trans r2 (onlyState_set s1 _ _ _), ?_, ?_, ?_, ?_, ?_⟩
      · simp only [List.length_set, lp]
      · simp only [List.length_set, lv]
      · simp only [List.length_set, le]
      · intro i hi
        have hne : n ≠ i := by omega
        simp only [List.getElem?_set_ne hne]
        exact r3 i (by omega)
      · intro i hi
        by_cases hin : i = n
        · subst hin
          constructor
          · intro hnull
            rw [hxa] at hnull
            cases hnull
          · intro j p v e hj hp' hv' he'
            rw [hxa] at hj
            rw [hxp] at hp'
            rw [hxv] at hv'
            rw [hxe] at he'
            cases hj; cases hp'; cases hv'; cases he'
            simp only [List.getElem?_set_self (show i < s1.joint_position_.length by omega),
              List.getElem?_set_self (show i < s1.joint_velocity_.length by omega),
              List.getElem?_set_self (show i < s1.joint_effort_.length by omega), and_self]
        · have hne : n ≠ i := fun h => hin h.symm
          simp only [List.getElem?_set_ne hne]
          exact r4 i (by omega)

/-! ## `write` -/

theorem writeLoop_spec (st : DogBotHWInterface) :
    ∀ n : Nat, n ≤ st.m_actuators.length → n ≤ st.joint_position_command_.length →
      forLoop (writeJoint st) n [] =
        some (demandsOf st.m_actuators st.joint_position_command_ n) := by
  intro n
  induction n with
  | zero => intro _ _; rfl
  | succ n ih =>
    intro ha hc
    rw [forLoop_succ, ih (by omega) (by omega)]
    have hxa : st.m_actuators[n]? = some (st.m_actuators[n]) := List.getElem?_eq_getElem (by omega)
    have hxc : st.joint_position_command_[n]? = some (st.joint_position_command_[n]) :=
      List.getElem?_eq_getElem (by omega)
    have hd : st.joint_position_command_.getD n 0 = st.joint_position_command_[n] := by
      rw [List.getD_eq_getElem?_getD, hxc]; rfl
    simp only [Option.some_bind, demandsOf, List.range_succ, List.filterMap_append]
    cases hslot : st.m_actuators[n] with
    | none =>
      rw [hslot] at hxa
      simp only [writeJoint, hxa, List.filterMap_cons, List.filterMap_nil, List.append_nil]
    | some jnt =>
      rw [hslot] at hxa
      simp only [writeJoint, hxa, hxc, hd, List.filterMap_cons, List.filterMap_nil]

theorem demandsOf_length (acts : List (Option JointC)) (cmd : List ℚ) :
    ∀ n : Nat, n ≤ acts.length → (demandsOf acts cmd n).length = nonNullCount acts n := by
  intro n
  induction n with
  | zero => intro _; rfl
  | succ n ih =>
    intro ha
    have hxa : acts[n]? = some (acts[n]) := List.getElem?_eq_getElem (by omega)
    have ih' := ih (by omega)
    unfold demandsOf nonNullCount at *
    rw [List.range_succ, List.filterMap_append, List.take_succ, List.filter_append,
      List.length_append, List.length_append, ih']
    cases hslot : acts[n] with
    | none =>
      rw [hslot] at hxa
      simp [hxa]
    | some jnt =>
      rw [hslot] at hxa
      simp [hxa]

theorem satInterfaceEnforce_length (ext : External) (period : Duration) (pos : List ℚ) :
    ∀ (hs : List SaturationHandle) (cmd : List ℚ),
      (satInterfaceEnforce ext period pos hs cmd).2.length = cmd.length := by
  intro hs
  induction hs with
  | nil => intro cmd; rfl
  | cons h hs ih =>
    intro cmd
    simp only [satInterfaceEnforce]
    rw [ih, List.length_set]

/-- With control enabled, `write` returns the limit-enforced state and the demands of the
non-null proxies. -/
theorem write_enabled_spec (ext : External) (st : DogBotHWInterface) (theTime : TimePointT)
    (elapsed_time : Duration) (henabled : st.m_enableControl = true) (hsize : WellSized st) :
    write ext st theTime elapsed_time =
        some (enforceLimits ext st elapsed_time,
          demandsOf st.m_actuators
            (enforceLimits ext st elapsed_time).joint_position_command_ st.num_joints_) ∧
      (demandsOf st.m_actuators
          (enforceLimits ext st elapsed_time).joint_position_command_ st.num_joints_).length =
        nonNullCount st.m_actuators st.num_joints_ := by
  obtain ⟨ha, _, _, _, hc, _⟩ := hsize
  have hlen : (enforceLimits ext st elapsed_time).joint_position_command_.length =
      st.joint_position_command_.length := satInterfaceEnforce_length ext _ _ _ _
  constructor
  · have hloop := writeLoop_spec (enforceLimits ext st elapsed_time) st.num_joints_ ha
      (by rw [hlen]; exact hc)
    unfold write
    rw [if_neg (by rw [henabled]; decide)]
    have hnot : ¬ (enforceLimits ext st elapsed_time).m_actuators.length <
        (enforceLimits ext st elapsed_time).num_joints_ := Nat.not_lt.mpr ha
    simp only [hnot, if_false]
    have hn : (enforceLimits ext st elapsed_time).num_joints_ = st.num_joints_ := rfl
    have hm : (enforceLimits ext st elapsed_time).m_actuators = st.m_actuators := rfl
    rw [hn, hloop, hm]
    rfl
  · exact demandsOf_length _ _ _ ha

/-- With control disabled, `write` returns at once. -/
theorem write_disabled_spec (ext : External) (st : DogBotHWInterface)
    (theTime : TimePointT) (elapsed_time : Duration) (hdisabled : st.m_enableControl = false) :
    write ext st theTime elapsed_time = some (st, []) := by
  unfold write
  rw [if_pos hdisabled]

/-! ## `init` -/

theorem onlyLimits_refl (a : DogBotHWInterface) : OnlyLimitsChanged a a := by
  cases a; exact ⟨rfl, rfl, rfl, rfl, rfl⟩

theorem onlyLimits_trans {a b c : DogBotHWInterface} (h1 : OnlyLimitsChanged a b)
    (h2 : OnlyLimitsChanged b c) : OnlyLimitsChanged a c := by
  obtain ⟨e1, l1, l2, l3, l4⟩ := h1
  obtain ⟨e2, m1, m2, m3, m4⟩ := h2
  refine ⟨?_, m1.trans l1, m2.trans l2, m3.trans l3, m4.trans l4⟩
  cases a; cases b; cases c
  simp only [DogBotHWInterface.mk.injEq, true_and, and_true] at *
  simp only [e1, e2, and_self]

theorem onlyLimits_of_eq (a : DogBotHWInterface) (l1 l2 l3 l4 : List ℚ)
    (s1 s2 s3 : List SaturationHandle) (f1 f2 f3 : List SoftLimitsHandle)
    (h1 : l1.length = a.joint_position_lower_limits_.length)
    (h2 : l2.length = a.joint_position_upper_limits_.length)
    (h3 : l3.length = a.joint_velocity_limits_.length)
    (h4 : l4.length = a.joint_effort_limits_.length) :
    OnlyLimitsChanged a { a with
        joint_position_lower_limits_ := l1
        joint_position_upper_limits_ := l2
        joint_velocity_limits_ := l3
        joint_effort_limits_ := l4
        pos_jnt_sat_interface_ := s1
        vel_jnt_sat_interface_ := s2
        eff_jnt_sat_interface_ := s3
        pos_jnt_soft_limits_ := f1
        vel_jnt_soft_limits_ := f2
        eff_jnt_soft_limits_ := f3 } := by
  cases a
  exact ⟨rfl, h1, h2, h3, h4⟩

theorem setDefaultLimits_frame (st : DogBotHWInterface) (joint_id : Nat) :
    OnlyLimitsChanged st (setDefaultLimits st joint_id) :=
  onlyLimits_of_eq st _ _ _ _ _ _ _ _ _ _ (List.length_set _ _ _) (List.length_set _ _ _)
    (List.length_set _ _ _) (List.length_set _ _ _)

theorem copyLimits_frame (st : DogBotHWInterface) (joint_id : Nat) (l : JointLimits) :
    OnlyLimitsChanged st (copyLimits st joint_id l) := by
  unfold copyLimits
  cases l.has_position_limits <;> cases l.has_velocity_limits <;> cases l.has_effort_limits <;>
    exact onlyLimits_of_eq st _ _ _ _ _ _ _ _ _ _ (by simp) (by simp) (by simp) (by simp)

theorem registerLimitHandles_frame (st : DogBotHWInterface) (joint_id : Nat) (l : JointLimits)
    (b : Bool) (sl : SoftJointLimits) :
    OnlyLimitsChanged st (registerLimitHandles st joint_id l b sl) := by
  unfold registerLimitHandles
  cases b <;> exact onlyLimits_of_eq st _ _ _ _ _ _ _ _ _ _ rfl rfl rfl rfl

theorem registerJointLimits_frame (ext : External) (st : DogBotHWInterface) (joint_id : Nat) :
    OnlyLimitsChanged st (registerJointLimits ext st joint_id) := by
  unfold registerJointLimits
  simp only
  split
  · exact setDefaultLimits_frame st joint_id
  · split
    · exact setDefaultLimits_frame st joint_id
    · exact onlyLimits_trans (setDefaultLimits_frame st joint_id)
        (onlyLimits_trans (copyLimits_frame _ _ _) (registerLimitHandles_frame _ _ _ _ _))

theorem initLoop_frame (ext : External) (st : DogBotHWInterface) :
    ∀ n : Nat, OnlyLimitsChanged st (initLoop ext n st) := by
  intro n
  induction n with
  | zero => exact onlyLimits_refl st
  | succ n ih => exact onlyLimits_trans ih (registerJointLimits_frame ext _ n)

theorem resize_length (v : List ℚ) (n : Nat) (x : ℚ) : (resize v n x).length = n := by
  unfold resize
  simp only [List.length_append, List.length_take, List.length_replicate]
  omega

theorem resize_nil (n : Nat) (x : ℚ) : resize [] n x = List.replicate n x := by
  simp [resize]

/-- What `init` leaves behind: the joint count is the number of names, every per-joint vector
has that size, the state and command arrays are the resized old ones, and the names, the
actuator list and the flags are untouched. -/
theorem init_spec (ext : External) (st : DogBotHWInterface) :
    (init ext st).num_joints_ = st.joint_names_.length ∧
    (init ext st).joint_names_ = st.joint_names_ ∧
    (init ext st).m_actuators = st.m_actuators ∧
    (init ext st).joint_position_ = resize st.joint_position_ st.joint_names_.length 0 ∧
    (init ext st).joint_velocity_ = resize st.joint_velocity_ st.joint_names_.length 0 ∧
    (init ext st).joint_effort_ = resize st.joint_effort_ st.joint_names_.length 0 ∧
    (init ext st).joint_position_command_ =
      resize st.joint_position_command_ st.joint_names_.length 0 ∧
    (init ext st).joint_velocity_command_ =
      resize st.joint_velocity_command_ st.joint_names_.length 0 ∧
    (init ext st).joint_effort_command_ =
      resize st.joint_effort_command_ st.joint_names_.length 0 ∧
    (init ext st).joint_position_lower_limits_.length = st.joint_names_.length ∧
    (init ext st).joint_position_upper_limits_.length = st.joint_names_.length ∧
    (init ext st).joint_velocity_limits_.length = st.joint_names_.length ∧
    (init ext st).joint_effort_limits_.length = st.joint_names_.length ∧
    (init ext st).m_enableControl = st.m_enableControl ∧
    (init ext st).m_maxTorque = st.m_maxTorque ∧
    (init ext st).use_soft_limits_if_available_ = st.use_soft_limits_if_available_ := by
  unfold init
  simp only
  obtain ⟨e, l1, l2, l3, l4⟩ := initLoop_frame ext
    { st with
      num_joints_ := st.joint_names_.length
      joint_position_ := resize st.joint_position_ st.joint_names_.length 0
      joint_velocity_ := resize st.joint_velocity_ st.joint_names_.length 0
      joint_effort_ := resize st.joint_effort_ st.joint_names_.length 0
      joint_position_command_ := resize st.joint_position_command_ st.joint_names_.length 0
      joint_velocity_command_ := resize st.joint_velocity_command_ st.joint_names_.length 0
      joint_effort_command_ := resize st.joint_effort_command_ st.joint_names_.length 0
      joint_position_lower_limits_ :=
        resize st.joint_position_lower_limits_ st.joint_names_.length 0
      joint_position_upper_limits_ :=
        resize st.joint_position_upper_limits_ st.joint_names_.length 0
      joint_velocity_limits_ := resize st.joint_velocity_limits_ st.joint_names_.length 0
      joint_effort_limits_ := resize st.joint_effort_limits_ st.joint_names_.length 0 }
    st.joint_names_.length
  refine ⟨?_, ?_, ?_, ?_, ?_, ?_, ?_, ?_, ?_, ?_, ?_, ?_, ?_, ?_, ?_, ?_⟩
  · have h := congrArg DogBotHWInterface.num_joints_ e
    exact h
  · have h := congrArg DogBotHWInterface.joint_names_ e
    exact h
  · have h := congrArg DogBotHWInterface.m_actuators e
    exact h
  · have h := congrArg DogBotHWInterface.joint_position_ e
    exact h
  · have h := congrArg DogBotHWInterface.joint_velocity_ e
    exact h
  · have h := congrArg DogBotHWInterface.joint_effort_ e
    exact h
  · have h := congrArg DogBotHWInterface.joint_position_command_ e
    exact h
  · have h := congrArg DogBotHWInterface.joint_velocity_command_ e
    exact h
  · have h := congrArg DogBotHWInterface.joint_effort_command_ e
    exact h
  · rw [l1]; exact resize_length _ _ _
  · rw [l2]; exact resize_length _ _ _
  · rw [l3]; exact resize_length _ _ _
  · rw [l4]; exact resize_length _ _ _
  · have h := congrArg DogBotHWInterface.m_enableControl e
    exact h
  · have h := congrArg DogBotHWInterface.m_maxTorque e
    exact h
  · have h := congrArg DogBotHWInterface.use_soft_limits_if_available_ e
    exact h

/-! ## The constructor -/

theorem resolveActuatorName_isSome (flag : Bool) (name : CString) (h : name.length < npos) :
    ∃ actname jntType, resolveActuatorName flag name = some (actname, jntType) :=
  ⟨_, _, resolveActuatorName_eq flag name h⟩

theorem constructLoop_spec (ext : External) (flag : Bool) :
    ∀ (names : List CString) (acc : List (Option JointC)),
      (∀ name, name ∈ names → name.length < npos) →
      constructLoop ext flag names acc = some (acc ++ names.map (slotOf ext flag)) := by
  intro names
  induction names with
  | nil => intro acc _; simp [constructLoop]
  | cons name rest ih =>
    intro acc hn
    obtain ⟨actname, jntType, hr⟩ :=
      resolveActuatorName_isSome flag name (hn name (List.mem_cons_self _ _))
    have hs : slotOf ext flag name = ext.GetJointByName actname := by
      simp only [slotOf, hr]
    simp only [constructLoop, hr]
    rw [ih _ (fun n hmem => hn n (List.mem_cons_of_mem _ hmem)), List.map_cons, hs,
      List.append_assoc]
    rfl

theorem construct_spec (ext : External) (urdf_model : CString → Option UrdfJoint)
    (joint_names : List CString) (enableControl useVirtualKneeJoints : Bool)
    (maxTorque jointVelocityLimit : ℚ)
    (hnames : ∀ name, name ∈ joint_names → name.length < npos) :
    ∃ st0, construct ext urdf_model joint_names enableControl useVirtualKneeJoints maxTorque
        jointVelocityLimit = some st0 ∧
      st0.joint_names_ = joint_names ∧
      st0.m_actuators = joint_names.map (slotOf ext useVirtualKneeJoints) ∧
      st0.joint_position_ = [] ∧ st0.joint_velocity_ = [] ∧ st0.joint_effort_ = [] ∧
      st0.joint_position_command_ = [] ∧ st0.joint_velocity_command_ = [] ∧
      st0.joint_effort_command_ = [] ∧
      st0.m_enableControl = enableControl ∧ st0.m_maxTorque = maxTorque ∧
      st0.use_soft_limits_if_available_ = false ∧
      st0.pos_jnt_soft_limits_ = [] ∧ st0.pos_jnt_sat_interface_ = [] ∧
      st0.urdf_model_ = some urdf_model ∧ st0.use_rosparam_joint_limits_ = false := by
  unfold construct
  rw [constructLoop_spec ext useVirtualKneeJoints joint_names [] hnames]
  exact ⟨_, rfl, rfl, rfl, rfl, rfl, rfl, rfl, rfl, rfl, rfl, rfl, rfl, rfl, rfl, rfl, rfl⟩

theorem constructLoop_some (ext : External) (flag : Bool) :
    ∀ (names : List CString) (acc acts : List (Option JointC)),
      constructLoop ext flag names acc = some acts →
      acts = acc ++ names.map (slotOf ext flag) := by
  intro names
  induction names with
  | nil =>
    intro acc acts h
    simp only [constructLoop, Option.some.injEq] at h
    simp [h]
  | cons name rest ih =>
    intro acc acts h
    cases hr : resolveActuatorName flag name with
    | none => simp [constructLoop, hr] at h
    | some p =>
      obtain ⟨actname, jntType⟩ := p
      have hs : slotOf ext flag name = ext.GetJointByName actname := by
        simp only [slotOf, hr]
      simp only [constructLoop, hr] at h
      rw [ih _ _ h, List.map_cons, hs, List.append_assoc]
      rfl

/-- What a successful constructor leaves behind. -/
theorem construct_some (ext : External) (urdf_model : CString → Option UrdfJoint)
    (joint_names : List CString) (enableControl useVirtualKneeJoints : Bool)
    (maxTorque jointVelocityLimit : ℚ) (st0 : DogBotHWInterface)
    (h : construct ext urdf_model joint_names enableControl useVirtualKneeJoints maxTorque
        jointVelocityLimit = some st0) :
    st0.joint_names_ = joint_names ∧
    st0.m_actuators = joint_names.map (slotOf ext useVirtualKneeJoints) ∧
    st0.joint_position_ = [] ∧ st0.joint_velocity_ = [] ∧ st0.joint_effort_ = [] ∧
    st0.joint_position_command_ = [] ∧ st0.joint_velocity_command_ = [] ∧
    st0.joint_effort_command_ = [] ∧
    st0.m_enableControl = enableControl ∧ st0.m_maxTorque = maxTorque ∧
    st0.use_soft_limits_if_available_ = false ∧
    st0.pos_jnt_soft_limits_ = [] ∧ st0.pos_jnt_sat_interface_ = [] ∧
    st0.urdf_model_ = some urdf_model ∧ st0.use_rosparam_joint_limits_ = false ∧
    st0.m_useVirtualKneeJoints = useVirtualKneeJoints := by
  unfold construct at h
  cases hc : constructLoop ext useVirtualKneeJoints joint_names [] with
  | none => rw [hc] at h; cases h
  | some acts =>
    rw [hc] at h
    simp only [Option.map_some', Option.some.injEq] at h
    have ha := constructLoop_some ext useVirtualKneeJoints joint_names [] acts hc
    rw [List.nil_append] at ha
    subst h
    exact ⟨rfl, ha, rfl, rfl, rfl, rfl, rfl, rfl, rfl, rfl, rfl, rfl, rfl, rfl, rfl, rfl⟩

/-! ## `read` -/

theorem sizedFor_wellSized {n : Nat} {st : DogBotHWInterface} (h : SizedFor n st) :
    WellSized st := by
  obtain ⟨h1, h2, h3, h4, h5, h6, _, _, _, _, _, h12⟩ := h
  unfold WellSized
  omega

theorem read_spec (world : StateQuery) (st : DogBotHWInterface) (theTime : TimePointT)
    (elapsed : Duration) (hsize : WellSized st) :
    ∃ st', read world st theTime elapsed = some st' ∧
      OnlyStateArraysChanged st st' ∧
      st'.joint_position_.length = st.joint_position_.length ∧
      st'.joint_velocity_.length = st.joint_velocity_.length ∧
      st'.joint_effort_.length = st.joint_effort_.length ∧
      (∀ i, i < st.num_joints_ →
        (st.m_actuators[i]? = some none →
          st'.joint_position_[i]? = st.joint_position_[i]? ∧
          st'.joint_velocity_[i]? = st.joint_velocity_[i]? ∧
          st'.joint_effort_[i]? = st.joint_effort_[i]?) ∧
        (∀ jnt p v e, st.m_actuators[i]? = some (some jnt) →
          st.joint_position_[i]? = some p → st.joint_velocity_[i]? = some v →
          st.joint_effort_[i]? = some e →
          st'.joint_position_[i]? = some (world jnt theTime (p, v, e)).1 ∧
          st'.joint_velocity_[i]? = some (world jnt theTime (p, v, e)).2.1 ∧
          st'.joint_effort_[i]? = some (world jnt theTime (p, v, e)).2.2)) := by
  obtain ⟨ha, hp, hv, he, _, _⟩ := hsize
  obtain ⟨st', r1, r2, lp, lv, le, _, r4⟩ :=
    readLoop_spec world theTime st st.num_joints_ ha hp hv he
  refine ⟨st', ?_, r2, lp, lv, le, r4⟩
  unfold read
  rw [if_neg (Nat.not_lt.mpr ha)]
  exact r1

theorem onlyState_fields {a b : DogBotHWInterface} (h : OnlyStateArraysChanged a b) :
    b.num_joints_ = a.num_joints_ ∧ b.m_actuators = a.m_actuators ∧
    b.joint_names_ = a.joint_names_ ∧
    b.joint_position_command_ = a.joint_position_command_ ∧
    b.joint_velocity_command_ = a.joint_velocity_command_ ∧
    b.joint_effort_command_ = a.joint_effort_command_ ∧
    b.joint_position_lower_limits_ = a.joint_position_lower_limits_ ∧
    b.joint_position_upper_limits_ = a.joint_position_upper_limits_ ∧
    b.joint_velocity_limits_ = a.joint_velocity_limits_ ∧
    b.joint_effort_limits_ = a.joint_effort_limits_ := by
  unfold OnlyStateArraysChanged at h
  have h1 := congrArg DogBotHWInterface.num_joints_ h
  have h2 := congrArg DogBotHWInterface.m_actuators h
  have h3 := congrArg DogBotHWInterface.joint_names_ h
  have h4 := congrArg DogBotHWInterface.joint_position_command_ h
  have h5 := congrArg DogBotHWInterface.joint_velocity_command_ h
  have h6 := congrArg DogBotHWInterface.joint_effort_command_ h
  have h7 := congrArg DogBotHWInterface.joint_position_lower_limits_ h
  have h8 := congrArg DogBotHWInterface.joint_position_upper_limits_ h
  have h9 := congrArg DogBotHWInterface.joint_velocity_limits_ h
  have h10 := congrArg DogBotHWInterface.joint_effort_limits_ h
  exact ⟨h1, h2, h3, h4, h5, h6, h7, h8, h9, h10⟩

theorem read_preserves_sized (world : StateQuery) (st st' : DogBotHWInterface)
    (theTime : TimePointT) (elapsed : Duration) (n : Nat) (hs : SizedFor n st)
    (hr : read world st theTime elapsed = some st') :
    SizedFor n st' ∧ st'.m_actuators = st.m_actuators ∧ st'.joint_names_ = st.joint_names_ ∧
      (NullSlotsZero st → NullSlotsZero st') := by
  obtain ⟨s, r1, r2, lp, lv, le, r4⟩ :=
    read_spec world st theTime elapsed (sizedFor_wellSized hs)
  rw [r1] at hr
  cases hr
  obtain ⟨f1, f2, f3, f4, f5, f6, f7, f8, f9, f10⟩ := onlyState_fields r2
  obtain ⟨h1, h2, h3, h4, h5, h6, h7, h8, h9, h10, h11, h12⟩ := hs
  refine ⟨⟨?_, ?_, ?_, ?_, ?_, ?_, ?_, ?_, ?_, ?_, ?_, ?_⟩, f2, f3, ?_⟩
  · rw [f1]; exact h1
  · rw [f2]; exact h2
  · rw [lp]; exact h3
  · rw [lv]; exact h4
  · rw [le]; exact h5
  · rw [f4]; exact h6
  · rw [f5]; exact h7
  · rw [f6]; exact h8
  · rw [f7]; exact h9
  · rw [f8]; exact h10
  · rw [f9]; exact h11
  · rw [f10]; exact h12
  · intro hz i hi hnull
    rw [f1] at hi
    rw [f2] at hnull
    obtain ⟨z1, z2, z3⟩ := hz i hi hnull
    obtain ⟨u1, u2, u3⟩ := (r4 i hi).1 hnull
    exact ⟨u1.trans z1, u2.trans z2, u3.trans z3⟩

theorem init_sized (ext : External) (st0 : DogBotHWInterface)
    (hlen : st0.m_actuators.length = st0.joint_names_.length) :
    SizedFor st0.joint_names_.length (init ext st0) := by
  obtain ⟨i1, _, i3, i4, i5, i6, i7, i8, i9, i10, i11, i12, i13, _⟩ := init_spec ext st0
  refine ⟨i1, ?_, ?_, ?_, ?_, ?_, ?_, ?_, i10, i11, i12, i13⟩
  · rw [i3]; exact hlen
  · rw [i4]; exact resize_length _ _ _
  · rw [i5]; exact resize_length _ _ _
  · rw [i6]; exact resize_length _ _ _
  · rw [i7]; exact resize_length _ _ _
  · rw [i8]; exact resize_length _ _ _
  · rw [i9]; exact resize_length _ _ _

theorem init_nullSlotsZero (ext : External) (st0 : DogBotHWInterface)
    (hp : st0.joint_position_ = []) (hv : st0.joint_velocity_ = [])
    (he : st0.joint_effort_ = []) : NullSlotsZero (init ext st0) := by
  obtain ⟨i1, _, _, i4, i5, i6, _⟩ := init_spec ext st0
  intro i hi _
  rw [i1] at hi
  rw [i4, i5, i6, hp, hv, he, resize_nil]
  simp only [List.getElem?_replicate, hi, if_true, and_self]

theorem readSeq_spec (n : Nat) :
    ∀ (reads : List (StateQuery × TimePointT × Duration)) (st : DogBotHWInterface),
      SizedFor n st → NullSlotsZero st →
      ∃ stN, readSeq reads st = some stN ∧ SizedFor n stN ∧
        stN.m_actuators = st.m_actuators ∧ NullSlotsZero stN := by
  intro reads
  induction reads with
  | nil => intro st hs hz; exact ⟨st, rfl, hs, rfl, hz⟩
  | cons r rest ih =>
    intro st hs hz
    obtain ⟨world, theTime, elapsed⟩ := r
    obtain ⟨s, r1, _⟩ := read_spec world st theTime elapsed (sizedFor_wellSized hs)
    obtain ⟨p1, p2, _, p4⟩ := read_preserves_sized world st s theTime elapsed n hs r1
    obtain ⟨stN, q1, q2, q3, q4⟩ := ih s p1 (p4 hz)
    refine ⟨stN, ?_, q2, q3.trans p2, q4⟩
    simp only [readSeq, r1, Option.some_bind]
    exact q1

/-! ## `setWritePeriod` -/

theorem toFloat_DBL_MAX : toFloat DBL_MAX = CFloat.pinf := by decide!

theorem toFloat_tenthDouble : toFloat tenthDouble = CFloat.fin (13421773 / 134217728) := by
  decide!

/-- C3 as the specification states it fails: on the bridge the constructor and `init` build
for one joint with the URDF effort limit `0.1` and `max_torque` `2`, the effort array holds
the double `0.1`, and `setWritePeriod` passes the float nearest to it, `13421773 / 2 ^ 27`,
which is not `min(effortLimit[0], maxTorque)`. -/
theorem effort_limit_is_narrowed :
    startup tenthExternal sampleUrdf ["front_left_hip_joint".toList] true false 2 250 =
      some sampleTenthState ∧
    sampleTenthState.m_actuators = [some 1] ∧
    sampleTenthState.joint_effort_limits_ = [tenthDouble] ∧
    sampleTenthState.m_maxTorque = 2 ∧
    setWritePeriod sampleTenthState (1 / 100) =
      some [ProxyCall.SetupTrajectory 1 (1 / 100) (CFloat.fin (13421773 / 134217728))] ∧
    claimedSetupCalls sampleTenthState (1 / 100) =
      [ProxyCall.SetupTrajectory 1 (1 / 100) (CFloat.fin tenthDouble)] ∧
    setWritePeriod sampleTenthState (1 / 100) ≠
      some (claimedSetupCalls sampleTenthState (1 / 100)) := by
  refine ⟨rfl, by decide!, by decide!, by decide!, by decide!, by decide!, by decide!⟩

/-- C3, amended. On a bridge whose joints all have a proxy, `setWritePeriod(T)` completes and
passes to joint `i` the period `T` and the clamped narrowed effort limit: with
`float(effortLimit[i])` the double narrowed to `float`, the passed effort is `maxTorque`,
narrowed, when `float(effortLimit[i]) > maxTorque`, and `float(effortLimit[i])` otherwise.
When `maxTorque` is itself a float value the passed effort never exceeds it, and a joint left
at the default `DBL_MAX`, which narrows to infinity, gets exactly `maxTorque`. -/
theorem setWritePeriod_passes_narrowed_clamp (st : DogBotHWInterface) (T : ℚ)
    (hsize : st.num_joints_ ≤ st.joint_effort_limits_.length)
    (hproxies : ∀ i, i < st.num_joints_ → ∃ jnt, st.m_actuators[i]? = some (some jnt)) :
    ∃ calls, setWritePeriod st T = some calls ∧ calls.length = st.num_joints_ ∧
      ∀ i, i < st.num_joints_ → ∀ jnt limit, st.m_actuators[i]? = some (some jnt) →
        st.joint_effort_limits_[i]? = some limit →
        ∃ passed, calls[i]? = some (ProxyCall.SetupTrajectory jnt T passed) ∧
          ((toFloat limit).exceeds st.m_maxTorque = true → passed = toFloat st.m_maxTorque) ∧
          ((toFloat limit).exceeds st.m_maxTorque = false → passed = toFloat limit) ∧
          (toFloat st.m_maxTorque = CFloat.fin st.m_maxTorque →
            passed.exceeds st.m_maxTorque = false ∧
            (limit = DBL_MAX → passed = CFloat.fin st.m_maxTorque)) := by
  obtain ⟨calls, h1, h2, h3⟩ := setWritePeriod_loop st T st.num_joints_ hsize hproxies
  refine ⟨calls, h1, h2, ?_⟩
  intro i hi jnt limit hj hl
  refine ⟨_, h3 i hi jnt limit hj hl, ?_, ?_, ?_⟩
  · intro hgt; rw [if_pos hgt]
  · intro hgt; rw [if_neg (by rw [hgt]; decide)]
  · intro hfloat
    constructor
    · cases hgt : (toFloat limit).exceeds st.m_maxTorque with
      | true =>
        rw [if_pos rfl, hfloat]
        simp [CFloat.exceeds]
      | false =>
        rw [if_neg (by decide)]
        exact hgt
    · intro hd
      rw [hd, toFloat_DBL_MAX]
      have hp : CFloat.pinf.exceeds st.m_maxTorque = true := rfl
      rw [if_pos hp, hfloat]

/-- C3, amended, on the sample bridge, where `max_torque` is the float `2`: joint `0` with
the effort limit `3` and joint `1`, left at the default `DBL_MAX`, both get the effort `2`. -/
theorem setWritePeriod_passes_narrowed_clamp_witness :
    (sampleState.num_joints_ ≤ sampleState.joint_effort_limits_.length ∧
      ∀ i, i < sampleState.num_joints_ → ∃ jnt, sampleState.m_actuators[i]? = some (some jnt)) ∧
    ∃ calls, setWritePeriod sampleState (1 / 100) = some calls ∧
      calls[0]? = some (ProxyCall.SetupTrajectory 1 (1 / 100) (CFloat.fin 2)) ∧
      calls[1]? = some (ProxyCall.SetupTrajectory 2 (1 / 100) (CFloat.fin 2)) := by
  have hproxies : ∀ i, i < sampleState.num_joints_ →
      ∃ jnt, sampleState.m_actuators[i]? = some (some jnt) := by
    intro i hi
    have h2 : i < 2 := hi
    match i, h2 with
    | 0, _ => exact ⟨1, rfl⟩
    | 1, _ => exact ⟨2, rfl⟩
  have hfloat : toFloat sampleState.m_maxTorque = CFloat.fin sampleState.m_maxTorque := by
    decide!
  obtain ⟨calls, h1, _, h3⟩ :=
    setWritePeriod_passes_narrowed_clamp sampleState (1 / 100) (by decide) hproxies
  obtain ⟨p0, c0, a0, _, _⟩ := h3 0 (by decide) 1 3 rfl rfl
  obtain ⟨p1, c1, _, _, d1⟩ := h3 1 (by decide) 2 DBL_MAX rfl rfl
  refine ⟨⟨by decide, hproxies⟩, calls, h1, ?_, ?_⟩
  · rw [c0, a0 (by decide!), hfloat]
    rfl
  · rw [c1, (d1 hfloat).2 rfl]
    rfl

/-- C2, at a bridge the constructor and `init` produce: with the joints
`front_left_knee_joint` and `front_left_hip_joint` configured, virtual knees off and an API
that knows only `front_left_hip`, the actuator list is `[null, proxy 1]`, and `setWritePeriod`
dereferences the null slot: its result is the fault `none`, so the proxy of joint `1` gets no
`SetupTrajectory` call. -/
theorem setWritePeriod_null_slot_fault :
    (startup sampleExternal sampleUrdf
        ["front_left_knee_joint".toList, "front_left_hip_joint".toList] true false 4 250).map
        (fun st => (st.m_actuators, setWritePeriod st (1 / 100))) =
      some ([none, some 1], none) := by
  rfl

/-- The tolerance of null slots by the sibling loops, for contrast with `setWritePeriod`: on
every well sized state `read` and `write` complete, whatever slots are null, while
`setWritePeriod` faults as soon as one of the joints has a null slot. -/
theorem null_slot_siblings (ext : External) (world : StateQuery) (st : DogBotHWInterface)
    (theTime : TimePointT) (elapsed : Duration) (T : ℚ) (hsize : WellSized st) (i : Nat)
    (hi : i < st.num_joints_) (hnull : st.m_actuators[i]? = some none) :
    (read world st theTime elapsed).isSome = true ∧
    (write ext st theTime elapsed).isSome = true ∧
    setWritePeriod st T = none := by
  obtain ⟨st', hr, _⟩ := read_spec world st theTime elapsed hsize
  refine ⟨by rw [hr]; rfl, ?_, setWritePeriod_null st T i hnull st.num_joints_ hi []⟩
  cases hen : st.m_enableControl with
  | false => rw [write_disabled_spec ext st theTime elapsed hen]; rfl
  | true => rw [(write_enabled_spec ext st theTime elapsed hen hsize).1]; rfl

/-- C5. When control is enabled, `write` first enforces the limits and then demands, for each
non-null proxy among the joints in increasing index order, the limit-enforced position
command of the same index; null slots get no demand, so the number of demands equals the
number of non-null proxies. -/
theorem write_enabled_demands (ext : External) (st : DogBotHWInterface) (theTime : TimePointT)
    (elapsed_time : Duration) (henabled : st.m_enableControl = true) (hsize : WellSized st) :
    write ext st theTime elapsed_time =
        some (enforceLimits ext st elapsed_time,
          demandsOf st.m_actuators
            (enforceLimits ext st elapsed_time).joint_position_command_ st.num_joints_) ∧
      (demandsOf st.m_actuators
          (enforceLimits ext st elapsed_time).joint_position_command_ st.num_joints_).length =
        nonNullCount st.m_actuators st.num_joints_ :=
  write_enabled_spec ext st theTime elapsed_time henabled hsize

theorem sampleNullState_wellSized : WellSized sampleNullState := by
  unfold WellSized
  decide

/-- C5 on the sample bridge with a null slot at joint `0`: the single demand goes to the
proxy of joint `1`. -/
theorem write_enabled_demands_witness :
    (sampleNullState.m_enableControl = true ∧ WellSized sampleNullState) ∧
    write sampleExternal sampleNullState 0 1000 =
        some (enforceLimits sampleExternal sampleNullState 1000,
          demandsOf sampleNullState.m_actuators
            (enforceLimits sampleExternal sampleNullState 1000).joint_position_command_
            sampleNullState.num_joints_) ∧
      (demandsOf sampleNullState.m_actuators
          (enforceLimits sampleExternal sampleNullState 1000).joint_position_command_
          sampleNullState.num_joints_).length =
        nonNullCount sampleNullState.m_actuators sampleNullState.num_joints_ :=
  ⟨⟨rfl, sampleNullState_wellSized⟩,
    write_enabled_demands sampleExternal sampleNullState 0 1000 rfl sampleNullState_wellSized⟩

/-- C6. When control is disabled, `write` returns at once: it makes no call on any proxy and
leaves the whole state as it was, the command arrays, the state arrays and the internal state
of the limit handles included. -/
theorem write_disabled_no_effect (ext : External) (st : DogBotHWInterface)
    (theTime : TimePointT) (elapsed_time : Duration) (hdisabled : st.m_enableControl = false) :
    write ext st theTime elapsed_time = some (st, []) :=
  write_disabled_spec ext st theTime elapsed_time hdisabled

/-- C6 on the sample bridge with control disabled. -/
theorem write_disabled_no_effect_witness :
    sampleDisabledState.m_enableControl = false ∧
    write sampleExternal sampleDisabledState 0 1000 = some (sampleDisabledState, []) :=
  ⟨rfl, write_disabled_no_effect sampleExternal sampleDisabledState 0 1000 rfl⟩

/-- C4. On a well sized bridge `read` completes and changes the three state arrays only; for
every joint index `i` below the joint count, if proxy `i` is non-null the cells
`(pos[i], vel[i], eff[i])` hold what `GetStateAt(now)` of that proxy leaves in them, and if it
is null the three cells are unchanged. Hence after the constructor, `init` and any sequence of
reads every null slot still holds `(0, 0, 0)`. -/
theorem read_postcondition (world : StateQuery) (st : DogBotHWInterface) (theTime : TimePointT)
    (elapsed : Duration) (hsize : WellSized st) :
    (∃ st', read world st theTime elapsed = some st' ∧ OnlyStateArraysChanged st st' ∧
      ∀ i, i < st.num_joints_ →
        (∀ jnt, st.m_actuators[i]? = some (some jnt) →
          (st'.joint_position_.getD i 0, st'.joint_velocity_.getD i 0,
              st'.joint_effort_.getD i 0) =
            world jnt theTime (st.joint_position_.getD i 0, st.joint_velocity_.getD i 0,
              st.joint_effort_.getD i 0)) ∧
        (st.m_actuators[i]? = some none →
          st'.joint_position_[i]? = st.joint_position_[i]? ∧
          st'.joint_velocity_[i]? = st.joint_velocity_[i]? ∧
          st'.joint_effort_[i]? = st.joint_effort_[i]?)) ∧
    (∀ (ext : External) (urdf_model : CString → Option UrdfJoint) (joint_names : List CString)
        (enableControl useVirtualKneeJoints : Bool) (maxTorque jointVelocityLimit : ℚ)
        (st0 : DogBotHWInterface) (reads : List (StateQuery × TimePointT × Duration)),
      construct ext urdf_model joint_names enableControl useVirtualKneeJoints maxTorque
          jointVelocityLimit = some st0 →
      ∃ stN, readSeq reads (init ext st0) = some stN ∧
        stN.m_actuators = st0.m_actuators ∧ stN.num_joints_ = joint_names.length ∧
        ∀ i, i < stN.num_joints_ → stN.m_actuators[i]? = some none →
          stN.joint_position_[i]? = some 0 ∧ stN.joint_velocity_[i]? = some 0 ∧
          stN.joint_effort_[i]? = some 0) := by
  constructor
  · obtain ⟨ha, hp, hv, he, hc, hl⟩ := hsize
    obtain ⟨st', r1, r2, _, _, _, r4⟩ := read_spec world st theTime elapsed
      ⟨ha, hp, hv, he, hc, hl⟩
    refine ⟨st', r1, r2, ?_⟩
    intro i hi
    refine ⟨?_, (r4 i hi).1⟩
    intro jnt hj
    have hxp : st.joint_position_[i]? = some (st.joint_position_[i]) :=
      List.getElem?_eq_getElem (by omega)
    have hxv : st.joint_velocity_[i]? = some (st.joint_velocity_[i]) :=
      List.getElem?_eq_getElem (by omega)
    have hxe : st.joint_effort_[i]? = some (st.joint_effort_[i]) :=
      List.getElem?_eq_getElem (by omega)
    obtain ⟨q1, q2, q3⟩ := (r4 i hi).2 jnt _ _ _ hj hxp hxv hxe
    simp only [List.getD_eq_getElem?_getD, q1, q2, q3, hxp, hxv, hxe, Option.getD_some]
  · intro ext urdf_model joint_names enableControl useVirtualKneeJoints maxTorque
      jointVelocityLimit st0 reads hc
    obtain ⟨c1, c2, c3, c4, c5, _⟩ := construct_some _ _ _ _ _ _ _ _ hc
    have hlen : st0.m_actuators.length = st0.joint_names_.length := by
      rw [c1, c2, List.length_map]
    obtain ⟨stN, q1, q2, q3, q4⟩ := readSeq_spec st0.joint_names_.length reads (init ext st0)
      (init_sized ext st0 hlen) (init_nullSlotsZero ext st0 c3 c4 c5)
    refine ⟨stN, q1, ?_, ?_, q4⟩
    · rw [q3]; exact (init_spec ext st0).2.2.1
    · rw [q2.1, c1]

/-- C4 on the sample bridge with a null slot at joint `0`: the read completes, joint `1` takes
the state its proxy reports and the null slot keeps its zero position. -/
theorem read_postcondition_witness :
    WellSized sampleNullState ∧
    ∃ st', read sampleWorld sampleNullState 0 1000 = some st' ∧
      (st'.joint_position_.getD 1 0, st'.joint_velocity_.getD 1 0,
        st'.joint_effort_.getD 1 0) = (1 / 2, 1 / 4, 1 / 8) ∧
      st'.joint_position_[0]? = some 0 := by
  refine ⟨sampleNullState_wellSized, ?_⟩
  obtain ⟨st', h1, _, h3⟩ :=
    (read_postcondition sampleWorld sampleNullState 0 1000 sampleNullState_wellSized).1
  exact ⟨st', h1, (h3 1 (by decide)).1 2 rfl, ((h3 0 (by decide)).2 rfl).1⟩

/-! ## `main` of `dtservo.cc` -/

theorem mainRun_two_false (Open : CString → Bool) (nargs : Int) (argv : List CString)
    (h : Open (devFilename nargs argv) = false) :
    ∀ n, mainRun Open nargs argv (n + 2) =
      { pc := MainPc.returned 1,
        calls := [ComsCall.SetLogger, ComsCall.Open (devFilename nargs argv)],
        slept := 0 } := by
  intro n
  induction n with
  | zero => simp [mainRun, mainStep, h]
  | succ n ih =>
    show mainStep Open nargs argv (mainRun Open nargs argv (n + 2)) = _
    rw [ih]
    rfl

theorem mainRun_two_true (Open : CString → Bool) (nargs : Int) (argv : List CString)
    (h : Open (devFilename nargs argv) = true) :
    ∀ n, mainRun Open nargs argv (n + 2) =
      { pc := MainPc.looping,
        calls := [ComsCall.SetLogger, ComsCall.Open (devFilename nargs argv),
          ComsCall.SetHandler ComsPacketTypeT.CPT_PWMState],
        slept := n } := by
  intro n
  induction n with
  | zero => simp [mainRun, mainStep, h]
  | succ n ih =>
    show mainStep Open nargs argv (mainRun Open nargs argv (n + 2)) = _
    rw [ih]
    rfl

theorem mainRun_returned (Open : CString → Bool) (nargs : Int) (argv : List CString)
    (n : Nat) (code : Int) (h : (mainRun Open nargs argv n).pc = MainPc.returned code) :
    code = 1 ∧ Open (devFilename nargs argv) = false ∧
      (mainRun Open nargs argv n).calls =
        [ComsCall.SetLogger, ComsCall.Open (devFilename nargs argv)] := by
  match n with
  | 0 => simp [mainRun] at h
  | 1 => simp [mainRun, mainStep] at h
  | k + 2 =>
    cases ho : Open (devFilename nargs argv) with
    | false =>
      rw [mainRun_two_false Open nargs argv ho k] at h ⊢
      simp only [MainPc.returned.injEq] at h
      exact ⟨h.symm, rfl, rfl⟩
    | true =>
      rw [mainRun_two_true Open nargs argv ho k] at h
      simp at h

/-- C9. For every outcome of `SerialComsC::Open`, `main` of `dtservo` returns `1` if and only
if `Open` returned false; it does so at its third step, when the only calls made on the link
are `SetLogger` and `Open`, so no packet handler has been registered; and no run of `main`
returns any other code: when `Open` succeeds `main` registers its handler and stays in
`while(1)` for ever. -/
theorem main_returns_one_iff_open_fails (Open : CString → Bool) (nargs : Int)
    (argv : List CString) :
    ((∃ n, (mainRun Open nargs argv n).pc = MainPc.returned 1) ↔
      Open (devFilename nargs argv) = false) ∧
    (∀ n code, (mainRun Open nargs argv n).pc = MainPc.returned code →
      code = 1 ∧ Open (devFilename nargs argv) = false ∧
      ∀ packetType, ComsCall.SetHandler packetType ∉ (mainRun Open nargs argv n).calls) ∧
    (Open (devFilename nargs argv) = true →
      ∀ n, (mainRun Open nargs argv (n + 2)).pc = MainPc.looping) := by
  refine ⟨⟨?_, ?_⟩, ?_, ?_⟩
  · rintro ⟨n, hn⟩
    exact (mainRun_returned Open nargs argv n 1 hn).2.1
  · intro h
    exact ⟨2, by rw [mainRun_two_false Open nargs argv h 0]⟩
  · intro n code hn
    obtain ⟨h1, h2, h3⟩ := mainRun_returned Open nargs argv n code hn
    refine ⟨h1, h2, ?_⟩
    intro packetType hmem
    rw [h3] at hmem
    simp at hmem
  · intro h n
    rw [mainRun_two_true Open nargs argv h n]

/-- C9 at concrete runs: started without arguments, `main` returns `1` when `Open` fails, and
loops when `Open` succeeds. -/
theorem main_returns_one_iff_open_fails_witness :
    (∃ n, (mainRun (fun _ => false) 1 ["dtservo".toList] n).pc = MainPc.returned 1) ∧
    ∀ n, (mainRun (fun _ => true) 1 ["dtservo".toList] (n + 2)).pc = MainPc.looping :=
  ⟨(main_returns_one_iff_open_fails (fun _ => false) 1 ["dtservo".toList]).1.2 rfl,
   (main_returns_one_iff_open_fails (fun _ => true) 1 ["dtservo".toList]).2.2 rfl⟩

/-! ## The slot-count invariant -/

theorem write_preserves_sized (ext : External) (st st' : DogBotHWInterface)
    (calls : List ProxyCall) (theTime : TimePointT) (elapsed : Duration) (n : Nat)
    (hs : SizedFor n st) (hw : write ext st theTime elapsed = some (st', calls)) :
    SizedFor n st' ∧ st'.m_actuators = st.m_actuators ∧ st'.joint_names_ = st.joint_names_ := by
  cases hen : st.m_enableControl with
  | false =>
    rw [write_disabled_spec ext st theTime elapsed hen] at hw
    cases hw
    exact ⟨hs, rfl, rfl⟩
  | true =>
    rw [(write_enabled_spec ext st theTime elapsed hen (sizedFor_wellSized hs)).1] at hw
    cases hw
    obtain ⟨h1, h2, h3, h4, h5, h6, h7, h8, h9, h10, h11, h12⟩ := hs
    refine ⟨⟨h1, h2, h3, h4, h5, ?_, h7, h8, h9, h10, h11, h12⟩, rfl, rfl⟩
    exact (satInterfaceEnforce_length ext _ _ _ _).trans h6

theorem reachable_invariant (ext : External) (st0 : DogBotHWInterface)
    (hlen : st0.m_actuators.length = st0.joint_names_.length) (st : DogBotHWInterface)
    (h : Reachable ext st0 st) :
    SizedFor st0.joint_names_.length st ∧ st.m_actuators = st0.m_actuators ∧
      st.joint_names_ = st0.joint_names_ := by
  induction h with
  | init =>
    exact ⟨init_sized ext st0 hlen, (init_spec ext st0).2.2.1, (init_spec ext st0).2.1⟩
  | read world theTime elapsed _ hr ih =>
    obtain ⟨i1, i2, i3⟩ := ih
    obtain ⟨p1, p2, p3, _⟩ := read_preserves_sized world _ _ theTime elapsed _ i1 hr
    exact ⟨p1, p2.trans i2, p3.trans i3⟩
  | write theTime elapsed _ hw ih =>
    obtain ⟨i1, i2, i3⟩ := ih
    obtain ⟨p1, p2, p3⟩ := write_preserves_sized ext _ _ _ theTime elapsed _ i1 hw
    exact ⟨p1, p2.trans i2, p3.trans i3⟩
  | reset _ ih =>
    obtain ⟨⟨h1, h2, h3, h4, h5, h6, h7, h8, h9, h10, h11, h12⟩, i2, i3⟩ := ih
    exact ⟨⟨h1, h2, h3, h4, h5, h6, h7, h8, h9, h10, h11, h12⟩, i2, i3⟩
  | command p v e _ hp hv he ih =>
    obtain ⟨⟨h1, h2, h3, h4, h5, h6, h7, h8, h9, h10, h11, h12⟩, i2, i3⟩ := ih
    exact ⟨⟨h1, h2, h3, h4, h5, hp.trans h6, hv.trans h7, he.trans h8, h9, h10, h11, h12⟩,
      i2, i3⟩

/-- C10. The constructor completes on joint names of admissible length and appends exactly
one entry per configured name, in order, the null result of a failed lookup included: the
actuator list is the list of names mapped through the lookup. In every state reached after
`init` by reads, writes, resets and command updates the joint count and the length of the
actuator list both equal the number of names, entry `i` is the slot of name `i`, the
assertion `m_actuators.size() >= num_joints_` holds, and `read` and `write` complete. -/
theorem slot_count_invariant (ext : External) (urdf_model : CString → Option UrdfJoint)
    (joint_names : List CString) (enableControl useVirtualKneeJoints : Bool)
    (maxTorque jointVelocityLimit : ℚ)
    (hnames : ∀ name, name ∈ joint_names → name.length < npos) :
    ∃ st0, construct ext urdf_model joint_names enableControl useVirtualKneeJoints maxTorque
        jointVelocityLimit = some st0 ∧
      st0.m_actuators = joint_names.map (slotOf ext useVirtualKneeJoints) ∧
      st0.m_actuators.length = joint_names.length ∧
      ∀ st, Reachable ext st0 st →
        st.joint_names_ = joint_names ∧
        st.num_joints_ = joint_names.length ∧
        st.m_actuators.length = st.num_joints_ ∧
        (∀ i, i < st.num_joints_ →
          st.m_actuators[i]? = (st.joint_names_[i]?).map (slotOf ext useVirtualKneeJoints)) ∧
        ¬ st.m_actuators.length < st.num_joints_ ∧
        (∀ world theTime elapsed, (read world st theTime elapsed).isSome = true) ∧
        (∀ theTime elapsed, (write ext st theTime elapsed).isSome = true) := by
  obtain ⟨st0, hc, c1, c2, _⟩ := construct_spec ext urdf_model joint_names enableControl
    useVirtualKneeJoints maxTorque jointVelocityLimit hnames
  have hlen : st0.m_actuators.length = st0.joint_names_.length := by
    rw [c1, c2, List.length_map]
  refine ⟨st0, hc, c2, by rw [c2, List.length_map], ?_⟩
  intro st hr
  obtain ⟨hs, ha, hn⟩ := reachable_invariant ext st0 hlen st hr
  have hw := sizedFor_wellSized hs
  obtain ⟨h1, h2, _⟩ := hs
  rw [c1] at h1 h2 hn
  refine ⟨hn, h1, h2.trans h1.symm, ?_, ?_, ?_, ?_⟩
  · intro i _
    rw [ha, c2, hn, List.getElem?_map]
  · omega
  · intro world theTime elapsed
    obtain ⟨st', hrd, _⟩ := read_spec world st theTime elapsed hw
    rw [hrd]; rfl
  · intro theTime elapsed
    cases hen : st.m_enableControl with
    | false => rw [write_disabled_spec ext st theTime elapsed hen]; rfl
    | true => rw [(write_enabled_spec ext st theTime elapsed hen hw).1]; rfl

/-- C10 on the sample configuration: the knee joint is unknown to the API and still gets its
slot, a null one, in front of the slot of the hip joint; after `init` the joint count is `2`
and the assertion of `read` and `write` holds. -/
theorem slot_count_invariant_witness :
    (∀ name, name ∈ ["front_left_knee_joint".toList, "front_left_hip_joint".toList] →
      name.length < npos) ∧
    ∃ st0, construct sampleExternal sampleUrdf
        ["front_left_knee_joint".toList, "front_left_hip_joint".toList] true false 4 250 =
          some st0 ∧
      st0.m_actuators = [none, some 1] ∧
      (init sampleExternal st0).num_joints_ = 2 ∧
      ¬ (init sampleExternal st0).m_actuators.length < (init sampleExternal st0).num_joints_ := by
  have hnames : ∀ name,
      name ∈ ["front_left_knee_joint".toList, "front_left_hip_joint".toList] →
      name.length < npos := by decide
  obtain ⟨st0, h1, h2, _, h4⟩ := slot_count_invariant sampleExternal sampleUrdf
    ["front_left_knee_joint".toList, "front_left_hip_joint".toList] true false 4 250 hnames
  obtain ⟨_, r2, _, _, r5, _⟩ := h4 _ Reachable.init
  exact ⟨hnames, st0, h1, h2, r2, r5⟩

/-! ## Limit enforcement -/

theorem lastOccurrence_underscore_none (s : CString) (h : '_' ∉ s) :
    lastOccurrence "_".toList s = none := by
  rcases lastOccurrence_spec "_".toList underscore_ne_nil s with ⟨l1, _⟩ | ⟨i, _, l2, _⟩
  · exact l1
  · exfalso
    apply h
    have hm : '_' ∈ (s.drop i).take ("_".toList).length := by
      rw [show (s.drop i).take ("_".toList).length = "_".toList from l2]
      decide
    exact List.mem_of_mem_drop (List.mem_of_mem_take hm)

theorem legNameOf_no_underscore (s : CString) (h : '_' ∉ s) : legNameOf s = s := by
  unfold legNameOf
  rw [lastOccurrence_underscore_none s h]

theorem jointTypeOf_no_underscore (s : CString) (h : '_' ∉ s) : jointTypeOf s = s := by
  unfold jointTypeOf
  rw [lastOccurrence_underscore_none s h]

/-- C11. For every configured name whose stripped form, the name cut at the last `_joint`,
contains no underscore: the search for the underscore returns `npos`, the increment wraps the
position to `0`, and both the leg name and the joint type the constructor computes are the
whole stripped form. With `useVirtualKneeJoints` true a stripped form `knee` resolves to
`virtual_knee_knee`; every other underscore-free stripped form resolves to itself. -/
theorem no_leg_segment_resolution (useVirtualKneeJoints : Bool) (name : CString)
    (hsize : name.length < npos) (hnone : '_' ∉ strippedName name) :
    substr name 0 (rfind name "_joint".toList) = some (strippedName name) ∧
    rfind (strippedName name) "_".toList = npos ∧
    (rfind (strippedName name) "_".toList + 1) % 2 ^ 64 = 0 ∧
    substr (strippedName name) 0 (rfind (strippedName name) "_".toList) =
      some (strippedName name) ∧
    substr (strippedName name) ((rfind (strippedName name) "_".toList + 1) % 2 ^ 64)
        ((rfind name "_joint".toList + 2 ^ 64 -
          (rfind (strippedName name) "_".toList + 1) % 2 ^ 64) % 2 ^ 64) =
      some (strippedName name) ∧
    resolveActuatorName useVirtualKneeJoints name =
      some (if strippedName name = "knee".toList ∧ useVirtualKneeJoints = true then
              "virtual_knee_knee".toList
            else strippedName name,
            strippedName name) := by
  obtain ⟨s1, s2, s3⟩ := substr_stripped name hsize
  have ha : (strippedName name).length < npos :=
    lt_of_le_of_lt (strippedName_length_le name) hsize
  have hleg := legNameOf_no_underscore _ hnone
  have htype := jointTypeOf_no_underscore _ hnone
  have hr : rfind (strippedName name) "_".toList = npos := by
    rw [rfind_eq_lastOccurrence _ _ underscore_ne_nil, lastOccurrence_underscore_none _ hnone]
    rfl
  have s4 := substr_legName (strippedName name) ha
  have s5 := substr_jntType (strippedName name) _ s2 s3
  rw [hleg] at s4
  rw [htype] at s5
  refine ⟨s1, hr, ?_, s4, s5, ?_⟩
  · rw [hr]; decide
  · rw [resolveActuatorName_eq useVirtualKneeJoints name hsize, hleg, htype]
    by_cases hk : strippedName name = "knee".toList ∧ useVirtualKneeJoints = true
    · rw [if_pos hk, if_pos hk, hk.1]
      rfl
    · rw [if_neg hk, if_neg hk]

/-- C11 at concrete names with the flag on: `knee_joint` resolves to `virtual_knee_knee`, and
`hip_joint`, whose stripped form is another underscore-free name, resolves to `hip`. -/
theorem no_leg_segment_resolution_witness :
    ("knee_joint".toList.length < npos ∧ '_' ∉ strippedName "knee_joint".toList) ∧
    resolveActuatorName true "knee_joint".toList =
      some ("virtual_knee_knee".toList, "knee".toList) ∧
    resolveActuatorName true "hip_joint".toList = some ("hip".toList, "hip".toList) :=
  ⟨⟨by decide, by decide⟩,
    (no_leg_segment_resolution true "knee_joint".toList (by decide) (by decide)).2.2.2.2.2,
    (no_leg_segment_resolution true "hip_joint".toList (by decide) (by decide)).2.2.2.2.2⟩

end DogBot
